import Mathlib

/-!
Verification of the news-article normalization pipeline of the Nexus
repository (`src/services/dataNormalizer.js`), as a shallow embedding in
Lean 4.

Modeling conventions (JavaScript semantics):
* Raw provider payloads are arbitrary JavaScript values, modeled by the
  inductive type `JsVal`.  Plain objects are modeled as prototype-free
  association lists (first binding wins on lookup); JavaScript prototype
  chains are outside the model.
* JavaScript numbers are modeled as integers (`Int`).  The only fractional
  numbers produced by the pipeline are sentiment scores, which are integer
  multiples of 0.1; they are represented exactly, scaled by 10 (`score`
  in the source corresponds to `sentimentTenths / 10` here).
* A thrown exception is modeled by `Except.error ()`; `try/catch` blocks
  become `match` on the `Except` result.
* The ambient clock (`Date.now()`, `new Date().toISOString()`) is passed
  in explicitly as a parameter `now : Nat` (milliseconds since epoch).
* `Array.prototype.sort` is stable (ES2019) and, per `SortCompare`, a
  comparator result of `NaN` is treated as `+0`.  For comparator
  functions that are consistent on the list at hand, every stable sort
  algorithm yields the same result, so the sort is modeled by
  `List.insertionSort` (stable) with the boolean relation
  "comparator(a, b) <= 0".
* `Set` membership (the dedup `seen` set) uses SameValueZero, which
  coincides with structural equality on primitive keys; it is modeled by
  structural equality on `JsVal`.
-/

/-- A JavaScript value: the raw input type of the normalizers. -/
inductive JsVal where
  | undefined
  | null
  | bool (b : Bool)
  | num (n : Int)
  | str (s : String)
  | arr (elems : List JsVal)
  | obj (fields : List (String × JsVal))

mutual

def JsVal.beq : JsVal → JsVal → Bool
  | .undefined, .undefined => true
  | .null, .null => true
  | .bool a, .bool b => a == b
  | .num a, .num b => a == b
  | .str a, .str b => a == b
  | .arr xs, .arr ys => JsVal.beqList xs ys
  | .obj fs, .obj gs => JsVal.beqFields fs gs
  | _, _ => false

def JsVal.beqList : List JsVal → List JsVal → Bool
  | [], [] => true
  | x :: xs, y :: ys => JsVal.beq x y && JsVal.beqList xs ys
  | _, _ => false

def JsVal.beqFields : List (String × JsVal) → List (String × JsVal) → Bool
  | [], [] => true
  | (k, v) :: fs, (k2, v2) :: gs => k == k2 && JsVal.beq v v2 && JsVal.beqFields fs gs
  | _, _ => false

end

mutual

theorem JsVal.beq_iff : ∀ a b : JsVal, JsVal.beq a b = true ↔ a = b
  | .undefined, .undefined => by simp [JsVal.beq]
  | .null, .null => by simp [JsVal.beq]
  | .bool a, .bool b => by simp [JsVal.beq]
  | .num a, .num b => by simp [JsVal.beq]
  | .str a, .str b => by simp [JsVal.beq]
  | .arr xs, .arr ys => by
    simp only [JsVal.beq, JsVal.beqList_iff xs ys, JsVal.arr.injEq]
  | .obj fs, .obj gs => by
    simp only [JsVal.beq, JsVal.beqFields_iff fs gs, JsVal.obj.injEq]
  | .undefined, .null | .undefined, .bool _ | .undefined, .num _ | .undefined, .str _
  | .undefined, .arr _ | .undefined, .obj _
  | .null, .undefined | .null, .bool _ | .null, .num _ | .null, .str _
  | .null, .arr _ | .null, .obj _
  | .bool _, .undefined | .bool _, .null | .bool _, .num _ | .bool _, .str _
  | .bool _, .arr _ | .bool _, .obj _
  | .num _, .undefined | .num _, .null | .num _, .bool _ | .num _, .str _
  | .num _, .arr _ | .num _, .obj _
  | .str _, .undefined | .str _, .null | .str _, .bool _ | .str _, .num _
  | .str _, .arr _ | .str _, .obj _
  | .arr _, .undefined | .arr _, .null | .arr _, .bool _ | .arr _, .num _
  | .arr _, .str _ | .arr _, .obj _
  | .obj _, .undefined | .obj _, .null | .obj _, .bool _ | .obj _, .num _
  | .obj _, .str _ | .obj _, .arr _ => by simp [JsVal.beq]

theorem JsVal.beqList_iff : ∀ xs ys : List JsVal, JsVal.beqList xs ys = true ↔ xs = ys
  | [], [] => by simp [JsVal.beqList]
  | x :: xs, y :: ys => by
    simp [JsVal.beqList, JsVal.beq_iff x y, JsVal.beqList_iff xs ys]
  | [], _ :: _ => by simp [JsVal.beqList]
  | _ :: _, [] => by simp [JsVal.beqList]

theorem JsVal.beqFields_iff :
    ∀ fs gs : List (String × JsVal), JsVal.beqFields fs gs = true ↔ fs = gs
  | [], [] => by simp [JsVal.beqFields]
  | (k, v) :: fs, (k2, v2) :: gs => by
    simp [JsVal.beqFields, JsVal.beq_iff v v2, JsVal.beqFields_iff fs gs, and_assoc]
  | [], _ :: _ => by simp [JsVal.beqFields]
  | _ :: _, [] => by simp [JsVal.beqFields]

end

instance : DecidableEq JsVal := fun a b =>
  decidable_of_iff (JsVal.beq a b = true) (JsVal.beq_iff a b)

instance {e a : Type} [DecidableEq e] [DecidableEq a] : DecidableEq (Except e a)
  | .ok x, .ok y => decidable_of_iff (x = y) (by simp)
  | .error x, .error y => decidable_of_iff (x = y) (by simp)
  | .ok _, .error _ => isFalse (by simp)
  | .error _, .ok _ => isFalse (by simp)

/-- JavaScript truthiness: `undefined`, `null`, `false`, `0` and `""` are
falsy; every other value (including all arrays and objects) is truthy. -/
def JsVal.truthy : JsVal → Bool
  | .undefined => false
  | .null => false
  | .bool b => b
  | .num n => n != 0
  | .str s => s ≠ ""
  | .arr _ => true
  | .obj _ => true

/-- JavaScript `v || d`: the left operand if truthy, otherwise the right. -/
def jsOr (v d : JsVal) : JsVal := if v.truthy then v else d

/-- JavaScript property access `v.k`.  Throws a `TypeError` on `null` and
`undefined`; on objects it looks the key up (prototype-free model); on any
other value the named properties used by this pipeline are absent, so the
access yields `undefined`. -/
def JsVal.getProp : JsVal → String → Except Unit JsVal
  | .undefined, _ => .error ()
  | .null, _ => .error ()
  | .obj fs, k =>
    .ok (match fs.lookup k with
      | some v => v
      | none => .undefined)
  | _, _ => .ok .undefined

/-- JavaScript optional chaining `v?.k`: `undefined` when `v` is nullish,
ordinary property access otherwise. -/
def JsVal.getPropOpt (v : JsVal) (k : String) : JsVal :=
  match v with
  | .undefined => .undefined
  | .null => .undefined
  | .obj fs =>
    (match fs.lookup k with
      | some w => w
      | none => .undefined)
  | _ => .undefined

/-- JavaScript strict equality `v === s` against a string literal: true
exactly for the equal string value. -/
def jsStrictEqStr (v : JsVal) (s : String) : Bool :=
  match v with
  | .str t => t = s
  | _ => false

mutual

/-- JavaScript `String(v)` / template-literal coercion. -/
def jsToString : JsVal → String
  | .undefined => "undefined"
  | .null => "null"
  | .bool b => if b then "true" else "false"
  | .num n => toString n
  | .str s => s
  | .arr xs => String.intercalate "," (jsToStringElems xs)
  | .obj _ => "[object Object]"

/-- Array elements under `Array.prototype.toString`: `null` and
`undefined` become empty strings, the rest are coerced recursively. -/
def jsToStringElems : List JsVal → List String
  | [] => []
  | v :: rest =>
    (match v with
      | .undefined => ""
      | .null => ""
      | w => jsToString w) :: jsToStringElems rest

end

/-- Reverse a character accumulator into a string (helper for the
splitters below, which accumulate the current token in reverse). -/
def revToStr (cur : List Char) : String := String.mk cur.reverse

/-- JavaScript `s.split(sep)` for a one-character separator `sep`:
splits at every occurrence, keeping empty tokens (so `"a  b".split(" ")`
is `["a", "", "b"]` and `"".split(" ")` is `[""]`). -/
def splitCharGo (sep : Char) (cur : List Char) : List Char → List String
  | [] => [revToStr cur]
  | c :: rest =>
    if c = sep then revToStr cur :: splitCharGo sep [] rest
    else splitCharGo sep (c :: cur) rest

def jsSplitChar (sep : Char) (s : String) : List String :=
  splitCharGo sep [] s.data

mutual

/-- JavaScript `s.split(/\s+/)`: splits at maximal whitespace runs.  A
leading or trailing run produces an empty token, matching the regex
semantics (`" a "` gives `["", "a", ""]`). -/
def splitWsGo (cur : List Char) : List Char → List String
  | [] => [revToStr cur]
  | c :: rest =>
    if c.isWhitespace then revToStr cur :: splitWsRun rest
    else splitWsGo (c :: cur) rest

def splitWsRun : List Char → List String
  | [] => [""]
  | c :: rest =>
    if c.isWhitespace then splitWsRun rest
    else splitWsGo [c] rest

end

def jsSplitWs (s : String) : List String := splitWsGo [] s.data

/-- JavaScript `s.toLowerCase()` (ASCII case mapping; the lexicons and
stop-word lists below are all ASCII). -/
def jsToLower (s : String) : String := String.mk (s.data.map Char.toLower)

/-- A `\w` word character: `[A-Za-z0-9_]`. -/
def isWordChar (c : Char) : Bool :=
  (('a' ≤ c && c ≤ 'z') || ('A' ≤ c && c ≤ 'Z') || ('0' ≤ c && c ≤ '9') || c = '_')

/-- JavaScript `s.replace(/[^\w\s]/g, "")`: keep only word characters and
whitespace. -/
def stripNonWord (s : String) : String :=
  String.mk (s.data.filter fun c => isWordChar c || c.isWhitespace)

/-- JavaScript `s.replace(/[<>]/g, "")`: remove every angle bracket. -/
def stripAngles (s : String) : String :=
  String.mk (s.data.filter fun c => c ≠ '<' && c ≠ '>')

/-- Decimal digits of a character string, or `none` on a non-digit. -/
def parseDigitsGo (acc : Nat) : List Char → Option Nat
  | [] => some acc
  | c :: rest =>
    if c.isDigit then parseDigitsGo (acc * 10 + (c.toNat - 48)) rest
    else none

def parseDigits (cs : List Char) : Option Nat :=
  match cs with
  | [] => none
  | _ => parseDigitsGo 0 cs

/-- Left-pad the decimal representation of `n` with zeros to `width`. -/
def padZeros (width n : Nat) : String :=
  let s := toString n
  String.mk (List.replicate (width - s.length) '0') ++ s

/-- Gregorian calendar date for a day count since 1970-01-01 (the
standard era/year-of-era civil-from-days computation). -/
def civilFromDays (days : Nat) : Nat × Nat × Nat :=
  let z := days + 719468
  let era := z / 146097
  let doe := z % 146097
  let yoe := (doe - doe / 1460 + doe / 36524 - doe / 146096) / 365
  let y := yoe + era * 400
  let doy := doe - (365 * yoe + yoe / 4 - yoe / 100)
  let mp := (5 * doy + 2) / 153
  let d := doy - (153 * mp + 2) / 5 + 1
  let m := if mp < 10 then mp + 3 else mp - 9
  (if m ≤ 2 then y + 1 else y, m, d)

/-- Model of `new Date(now).toISOString()`: the ISO 8601 UTC timestamp
`YYYY-MM-DDTHH:MM:SS.mmmZ` for `now` milliseconds since the epoch. -/
def toISOString (now : Nat) : String :=
  let msPart := now % 1000
  let totalSec := now / 1000
  let secOfDay := totalSec % 86400
  let ymd := civilFromDays (totalSec / 86400)
  padZeros 4 ymd.1 ++ "-" ++ padZeros 2 ymd.2.1 ++ "-" ++ padZeros 2 ymd.2.2 ++
    "T" ++ padZeros 2 (secOfDay / 3600) ++ ":" ++ padZeros 2 (secOfDay % 3600 / 60) ++
    ":" ++ padZeros 2 (secOfDay % 60) ++ "." ++ padZeros 3 msPart ++ "Z"

def isLeapYear (y : Nat) : Bool :=
  y % 4 = 0 && (y % 100 ≠ 0 || y % 400 = 0)

def daysInMonth (y m : Nat) : Nat :=
  if m = 2 then (if isLeapYear y then 29 else 28)
  else if m = 4 || m = 6 || m = 9 || m = 11 then 30
  else 31

/-- Day count since 1970-01-01 of a civil date (valid for years ≥ 1). -/
def daysFromCivil (y m d : Nat) : Int :=
  let yAdj := if m ≤ 2 then y - 1 else y
  let era := yAdj / 400
  let yoe := yAdj % 400
  let doy := (153 * (if m > 2 then m - 3 else m + 9) + 2) / 5 + d - 1
  let doe := yoe * 365 + yoe / 4 - yoe / 100 + doy
  (era * 146097 + doe : Int) - 719468

/-- Parse the time-of-day part `HH:MM`, `HH:MM:SS` or `HH:MM:SS.mmm`
(already stripped of its trailing `Z`) into milliseconds. -/
def parseTimePart (t : String) : Option Nat :=
  match jsSplitChar ':' t with
  | [hh, mm] => do
    let h ← parseDigits hh.data
    let m ← parseDigits mm.data
    if hh.length = 2 ∧ mm.length = 2 ∧ h ≤ 23 ∧ m ≤ 59 then
      some ((h * 3600 + m * 60) * 1000)
    else none
  | [hh, mm, ssf] => do
    let h ← parseDigits hh.data
    let m ← parseDigits mm.data
    let sms ← (match jsSplitChar '.' ssf with
      | [ss] => do
        let s ← parseDigits ss.data
        if ss.length = 2 ∧ s ≤ 59 then some (s * 1000) else none
      | [ss, mmm] => do
        let s ← parseDigits ss.data
        let ml ← parseDigits mmm.data
        if ss.length = 2 ∧ s ≤ 59 ∧ mmm.length = 3 then some (s * 1000 + ml) else none
      | _ => none)
    if hh.length = 2 ∧ mm.length = 2 ∧ h ≤ 23 ∧ m ≤ 59 then
      some ((h * 3600 + m * 60) * 1000 + sms)
    else none
  | _ => none

/-- Model of `Date.parse` restricted to the ISO 8601 UTC forms the
pipeline traffics in: `YYYY-MM-DD`, optionally followed by
`THH:MM[:SS[.mmm]]Z`.  Everything else — including the engine-lax
non-ISO formats and zone-less date-times (interpreted in local time by
JavaScript) — is modeled as an invalid date (`none`, i.e. `NaN`). -/
def parseISODate (s : String) : Option Int := do
  let (datePart, timeMs) ←
    (match jsSplitChar 'T' s with
     | [d] => some (d, 0)
     | [d, t] =>
       (match t.data.getLast? with
        | some 'Z' => do
          let ms ← parseTimePart (String.mk (t.data.dropLast))
          some (d, ms)
        | _ => none)
     | _ => none)
  match jsSplitChar '-' datePart with
  | [ys, ms, ds] => do
    let y ← parseDigits ys.data
    let m ← parseDigits ms.data
    let d ← parseDigits ds.data
    if ys.length = 4 ∧ ms.length = 2 ∧ ds.length = 2 ∧ 1 ≤ y ∧
        1 ≤ m ∧ m ≤ 12 ∧ 1 ≤ d ∧ d ≤ daysInMonth y m then
      some (daysFromCivil y m d * 86400000 + (timeMs : Int))
    else none
  | _ => none

/-- Model of `new Date(v).getTime()`.  Strings go through `Date.parse`,
numbers are epoch milliseconds, `null`/booleans coerce to 0/1, and
`undefined` is an invalid date.  Arrays and objects (which JavaScript
first coerces to strings) are outside the model and treated as invalid
dates. -/
def jsDateValue : JsVal → Option Int
  | .str s => parseISODate s
  | .num n => some n
  | .null => some 0
  | .bool b => some (if b then 1 else 0)
  | _ => none

/-- UTF-8 bytes of a string (model of `Buffer.from(string)`). -/
def utf8BytesChar (c : Char) : List Nat :=
  let n := c.toNat
  if n < 128 then [n]
  else if n < 2048 then [192 + n / 64, 128 + n % 64]
  else if n < 65536 then [224 + n / 4096, 128 + n / 64 % 64, 128 + n % 64]
  else [240 + n / 262144, 128 + n / 4096 % 64, 128 + n / 64 % 64, 128 + n % 64]

def utf8Bytes : List Char → List Nat
  | [] => []
  | c :: rest => utf8BytesChar c ++ utf8Bytes rest

def base64Digit (n : Nat) : Char :=
  if n < 26 then Char.ofNat (65 + n)
  else if n < 52 then Char.ofNat (97 + (n - 26))
  else if n < 62 then Char.ofNat (48 + (n - 52))
  else if n = 62 then '+'
  else '/'

/-- Standard base64 encoding of a byte list (model of
`buffer.toString("base64")`). -/
def base64Go : List Nat → List Char
  | [] => []
  | [a] =>
    [base64Digit (a / 4), base64Digit (a % 4 * 16), '=', '=']
  | [a, b] =>
    [base64Digit (a / 4), base64Digit (a % 4 * 16 + b / 16), base64Digit (b % 16 * 4), '=']
  | a :: b :: c :: rest =>
    base64Digit (a / 4) :: base64Digit (a % 4 * 16 + b / 16) ::
      base64Digit (b % 16 * 4 + c / 64) :: base64Digit (c % 64) :: base64Go rest

def base64 (bytes : List Nat) : String := String.mk (base64Go bytes)

/-- The `source` sub-object of a Unified Article.  Its `id` is always one
of the literal provider strings, but `name` can carry a raw provider
value (`article.source?.name` for NewsAPI), so it stays a `JsVal`. -/
structure Source where
  id : String
  name : JsVal
deriving DecidableEq

/-- The `normalized` sub-object: derived fields.  `sentimentTenths` is
the sentiment score scaled by 10 (the source sums ±0.1 per lexicon hit
and clamps to [-1, 1]; here ±1 per hit clamped to [-10, 10]). -/
structure Normalized where
  readingTime : Nat
  sentimentTenths : Int
  keywords : List String
deriving DecidableEq

/-- A Unified Article.  `id` is always a synthesized string; the
free-text fields keep whatever JavaScript value the raw payload supplied
(the normalizers default them but do not coerce truthy raw values). -/
structure Article where
  id : String
  title : JsVal
  description : JsVal
  content : JsVal
  url : JsVal
  imageUrl : JsVal
  source : Source
  author : JsVal
  publishedAt : JsVal
  categories : List JsVal
  tags : List JsVal
  normalized : Normalized
deriving DecidableEq

/-- Stop words of `extractKeywords`. -/
def stopWords : List String :=
  ["the", "a", "an", "and", "or", "but", "in", "on", "at", "to", "for", "of", "with", "by"]

/-- `extractKeywords(text)`: falsy input yields `[]`; a truthy non-string
throws on `.toLowerCase()`; a string is lowercased, stripped of
non-word/non-space characters, split on whitespace runs, filtered to
words longer than 3 that are not stop words, and truncated to 10. -/
def extractKeywords (text : JsVal) : Except Unit (List String) :=
  if !text.truthy then .ok []
  else match text with
    | .str s =>
      .ok (((jsSplitWs (stripNonWord (jsToLower s))).filter
          (fun w => w.length > 3 && !stopWords.contains w)).take 10)
    | _ => .error ()

def positiveWords : List String :=
  ["good", "great", "excellent", "amazing", "wonderful", "fantastic", "brilliant",
   "success", "win", "happy", "love", "best"]

def negativeWords : List String :=
  ["bad", "terrible", "awful", "horrible", "worst", "failure", "lose", "sad",
   "hate", "angry", "crisis", "war", "death"]

/-- `calculateSentiment(text)`: falsy input scores 0; a truthy
non-string throws on `.toLowerCase()`; a string is lowercased, split on
whitespace runs, scored ±1 tenth per positive/negative lexicon hit, and
clamped to [-10, 10] tenths (i.e. [-1, 1]). -/
def calculateSentiment (text : JsVal) : Except Unit Int :=
  if !text.truthy then .ok 0
  else match text with
    | .str s =>
      let words := jsSplitWs (jsToLower s)
      let score := words.foldl
        (fun sc w =>
          sc + (if positiveWords.contains w then 1 else 0)
            - (if negativeWords.contains w then 1 else 0)) 0
      .ok (max (-10) (min 10 score))
    | _ => .error ()

/-- The provider names of `SOURCE_CONFIGS`, split out so that
`createFallbackArticle` (which only reads `.name`) does not depend on
the transformer table (in JavaScript the mutual reference is resolved by
hoisting). -/
def sourceConfigName (sourceId : String) : Option String :=
  if sourceId = "guardian" then some "The Guardian"
  else if sourceId = "newsapi" then some "NewsAPI"
  else none

/-- `createFallbackArticle(sourceId, index)`: the safe substitute record
used whenever normalization of an item fails. -/
def createFallbackArticle (sourceId : String) (index now : Nat) : Article where
  id := sourceId ++ "-fallback-" ++ toString now ++ "-" ++ toString index
  title := .str "Article Unavailable"
  description := .str "Unable to load article content"
  content := .str ""
  url := .str "#"
  imageUrl := .null
  source := ⟨sourceId, .str (match sourceConfigName sourceId with
    | some n => n
    | none => sourceId)⟩
  author := .null
  publishedAt := .str (toISOString now)
  categories := [.str "General"]
  tags := []
  normalized := ⟨1, 0, []⟩

/-- `tags.find(tag => tag.type === "contributor")`: property access on a
nullish element throws. -/
def jsFindContributor : List JsVal → Except Unit (Option JsVal)
  | [] => .ok none
  | t :: rest => do
    let ty ← t.getProp "type"
    if jsStrictEqStr ty "contributor" then pure (some t) else jsFindContributor rest

/-- `tags.map(tag => tag.webTitle)`: property access on a nullish
element throws. -/
def jsMapWebTitle : List JsVal → Except Unit (List JsVal)
  | [] => .ok []
  | t :: rest => do
    let w ← t.getProp "webTitle"
    let ws ← jsMapWebTitle rest
    pure (w :: ws)

/-- `v.split(" ")`: only strings have `.split`; any non-string throws. -/
def jsSplitSpaceStr (v : JsVal) : Except Unit (List String) :=
  match v with
  | .str s => .ok (jsSplitChar ' ' s)
  | _ => .error ()

/-- `Buffer.from(v)` for a truthy `v`: strings encode as UTF-8, arrays
byte-wise (numeric entries mod 256, other entries as 0 — non-numeric
entries that JavaScript would string-coerce first are a model boundary);
numbers, booleans and plain objects throw. -/
def bufferFrom (v : JsVal) : Except Unit (List Nat) :=
  match v with
  | .str s => .ok (utf8Bytes s.data)
  | .arr xs => .ok (xs.map fun e =>
      match e with
      | .num n => (n % 256).toNat
      | .bool b => if b then 1 else 0
      | _ => 0)
  | _ => .error ()

/-- The body of `normalizeGuardianArticle` up to its `try/catch`: every
step that can throw is sequenced in `Except`. -/
def guardianBody (article : JsVal) (index now : Nat) : Except Unit Article := do
  let fieldsRaw ← article.getProp "fields"
  let fields := jsOr fieldsRaw (.obj [])
  let tagsRaw ← article.getProp "tags"
  let tags := jsOr tagsRaw (.arr [])
  let authorTag ← (match tags with
    | .arr xs => jsFindContributor xs
    | _ => .error ())
  let author ← (match authorTag with
    | some t => t.getProp "webTitle"
    | none => pure JsVal.null)
  let idRaw ← article.getProp "id"
  let id := "guardian-" ++ jsToString (jsOr idRaw (.str (toString now ++ "-" ++ toString index)))
  let trailText ← fields.getProp "trailText"
  let webTitle ← article.getProp "webTitle"
  let contentRT := jsOr trailText (jsOr webTitle (.str ""))
  let words ← jsSplitSpaceStr contentRT
  let readingTime := max 1 ((words.length + 199) / 200)
  let sectionName ← article.getProp "sectionName"
  let categories := [jsOr sectionName (.str "General")].filter JsVal.truthy
  let keywords ← extractKeywords (jsOr webTitle (.str ""))
  let headline ← fields.getProp "headline"
  let body ← fields.getProp "body"
  let webUrl ← article.getProp "webUrl"
  let thumbnail ← fields.getProp "thumbnail"
  let webPubDate ← article.getProp "webPublicationDate"
  let tagTitles ← (match tags with
    | .arr xs => jsMapWebTitle xs
    | _ => .error ())
  pure {
    id := id
    title := jsOr webTitle (.str "Untitled")
    description := jsOr trailText (jsOr headline (.str ""))
    content := jsOr body (jsOr trailText (.str ""))
    url := jsOr webUrl (.str "#")
    imageUrl := jsOr thumbnail .null
    source := ⟨"guardian", .str "The Guardian"⟩
    author := author
    publishedAt := jsOr webPubDate (.str (toISOString now))
    categories := categories
    tags := tagTitles.filter JsVal.truthy
    normalized := ⟨readingTime, 0, keywords⟩ }

/-- `normalizeGuardianArticle(article, index)`: the body wrapped in its
`try/catch`, with the ambient clock passed explicitly. -/
def normalizeGuardianArticle (article : JsVal) (index now : Nat) : Article :=
  match guardianBody article index now with
  | .ok a => a
  | .error _ => createFallbackArticle "guardian" index now

/-- The body of `normalizeNewsAPIArticle` up to its `try/catch`. -/
def newsapiBody (article : JsVal) (index now : Nat) : Except Unit Article := do
  let urlV ← article.getProp "url"
  let id ← (if urlV.truthy then do
      let bytes ← bufferFrom urlV
      pure ("newsapi-" ++ String.mk ((base64 bytes).data.take 20))
    else pure ("newsapi-" ++ toString now ++ "-" ++ toString index))
  let contentV ← article.getProp "content"
  let descV ← article.getProp "description"
  let titleV ← article.getProp "title"
  let contentRT := jsOr contentV (jsOr descV (jsOr titleV (.str "")))
  let words ← jsSplitSpaceStr contentRT
  let readingTime := max 1 ((words.length + 199) / 200)
  let keywords ← extractKeywords
    (.str (jsToString (jsOr titleV (.str "")) ++ " " ++ jsToString (jsOr descV (.str ""))))
  let categories := [JsVal.str "General"]
  let urlToImage ← article.getProp "urlToImage"
  let srcV ← article.getProp "source"
  let srcName := JsVal.getPropOpt srcV "name"
  let authorV ← article.getProp "author"
  let pubV ← article.getProp "publishedAt"
  pure {
    id := id
    title := jsOr titleV (.str "Untitled")
    description := jsOr descV (.str "")
    content := jsOr contentV (jsOr descV (.str ""))
    url := jsOr urlV (.str "#")
    imageUrl := jsOr urlToImage .null
    source := ⟨"newsapi", jsOr srcName (.str "NewsAPI")⟩
    author := jsOr authorV .null
    publishedAt := jsOr pubV (.str (toISOString now))
    categories := categories
    tags := []
    normalized := ⟨readingTime, 0, keywords⟩ }

/-- `normalizeNewsAPIArticle(article, index)` with its `try/catch`. -/
def normalizeNewsAPIArticle (article : JsVal) (index now : Nat) : Article :=
  match newsapiBody article index now with
  | .ok a => a
  | .error _ => createFallbackArticle "newsapi" index now

/-- One entry of `SOURCE_CONFIGS`. -/
structure SourceConfig where
  name : String
  baseUrl : String
  transformer : JsVal → Nat → Nat → Article
  idPref : String

/-- The `SOURCE_CONFIGS` lookup table (`idPref` is the source's
`idPrefix` field). -/
def SOURCE_CONFIGS (sourceId : String) : Option SourceConfig :=
  if sourceId = "guardian" then
    some ⟨"The Guardian", "https://content.guardianapis.com", normalizeGuardianArticle, "guardian-"⟩
  else if sourceId = "newsapi" then
    some ⟨"NewsAPI", "https://newsapi.org/v2", normalizeNewsAPIArticle, "newsapi-"⟩
  else none

/-- The body of the per-item closure inside `normalizeArticles`: run the
provider transformer (which never throws — it has its own `try/catch`),
then install the sentiment if the article has content or description.
`calculateSentiment` throws on truthy non-string content, and that throw
is what the surrounding per-item `try/catch` can actually catch. -/
def transformBody (config : SourceConfig) (a : JsVal) (index now : Nat) :
    Except Unit Article := do
  let normalized := config.transformer a index now
  let ctext := jsOr normalized.content normalized.description
  if ctext.truthy then do
    let s ← calculateSentiment ctext
    pure { normalized with normalized := { normalized.normalized with sentimentTenths := s } }
  else pure normalized

/-- The per-item closure of `normalizeArticles` including its
`try/catch`. -/
def transformItem (config : SourceConfig) (sourceId : String) (a : JsVal)
    (index now : Nat) : Article :=
  match transformBody config a index now with
  | .ok art => art
  | .error _ => createFallbackArticle sourceId index now

/-- An article record, as a JavaScript object, is always truthy: the
trailing `.filter(Boolean)` of `normalizeArticles` keeps every item. -/
def articleIsTruthy (_ : Article) : Bool := true

/-- `list.map((a, i) => f(i, a))`: map with the element index. -/
def mapIdxGo (f : Nat → α → β) (i : Nat) : List α → List β
  | [] => []
  | a :: rest => f i a :: mapIdxGo f (i + 1) rest

/-- `normalizeArticles(articles, sourceId)`: non-arrays yield `[]`; an
unknown source maps every item to the generic `"unknown"` fallback;
otherwise each item goes through the per-item transformer with its
`try/catch`, and the result is filtered by `Boolean`. -/
def normalizeArticles (articles : JsVal) (sourceId : String) (now : Nat) : List Article :=
  match articles with
  | .arr xs =>
    (match SOURCE_CONFIGS sourceId with
     | none => mapIdxGo (fun i _ => createFallbackArticle "unknown" i now) 0 xs
     | some config =>
       (mapIdxGo (fun i a => transformItem config sourceId a i now) 0 xs).filter
         articleIsTruthy)
  | _ => []

/-- `normalizeArticle(article, sourceId)`: normalize a singleton batch
and take its first element, falling back if it is absent or falsy. -/
def normalizeArticle (article : JsVal) (sourceId : String) (now : Nat) : Article :=
  match (normalizeArticles (.arr [article]) sourceId now).head? with
  | some a => if articleIsTruthy a then a else createFallbackArticle sourceId 0 now
  | none => createFallbackArticle sourceId 0 now

/-- The dedup key of `mergeAndDeduplicateArticles`: the article's `url`
unless it is the placeholder `"#"`, in which case the template string
`title-source.id`. -/
def articleKey (a : Article) : JsVal :=
  if jsStrictEqStr a.url "#" then .str (jsToString a.title ++ "-" ++ a.source.id)
  else a.url

/-- The dedup loop of `mergeAndDeduplicateArticles`: keep an article iff
its key has not been seen yet (`seen` is the `Set`, in insertion order). -/
def dedupeByKey (seen : List JsVal) : List Article → List Article
  | [] => []
  | a :: rest =>
    if articleKey a ∈ seen then dedupeByKey seen rest
    else a :: dedupeByKey (articleKey a :: seen) rest

/-- The sort comparator of `mergeAndDeduplicateArticles` as a "stays
before" relation: `new Date(b.publishedAt) - new Date(a.publishedAt) <= 0`.
When either date is invalid the comparator result is `NaN`, which
`SortCompare` turns into `+0` (no swap), so both orders are accepted. -/
def mergeLEb (a b : Article) : Bool :=
  match jsDateValue a.publishedAt, jsDateValue b.publishedAt with
  | some x, some y => decide (y ≤ x)
  | _, _ => true

def mergeRel (a b : Article) : Prop := mergeLEb a b = true

instance : DecidableRel mergeRel := fun a b => by unfold mergeRel; infer_instance

/-- `mergeAndDeduplicateArticles(articlesArray)`: flatten, dedupe by key
keeping first occurrences, then stable-sort newest first. -/
def mergeAndDeduplicateArticles (articlesArray : List (List Article)) : List Article :=
  let allArticles := articlesArray.flatten
  let merged := dedupeByKey [] allArticles
  List.insertionSort mergeRel merged

/-- One step of `keywordCount[keyword] = (keywordCount[keyword] || 0) + 1`
on a plain object kept as an insertion-ordered association list: an
existing key is incremented in place, a new key is appended. -/
def bumpKeyword (acc : List (String × Nat)) (k : String) : List (String × Nat) :=
  if (acc.lookup k).isSome then
    acc.map (fun p => if p.1 = k then (p.1, p.2 + 1) else p)
  else acc ++ [(k, 1)]

/-- The keyword-count object of `extractTrendingTopics`. -/
def keywordCountList (articles : List Article) : List (String × Nat) :=
  articles.foldl (fun acc art => art.normalized.keywords.foldl bumpKeyword acc) []

/-- A canonical array-index property key: the decimal representation of
an integer below 2^32 - 1 with no leading zeros. -/
def isArrayIndexKey (s : String) : Bool :=
  match parseDigits s.data with
  | some n => toString n = s && n < 4294967295
  | none => false

/-- Numeric value used to order array-index keys. -/
def idxKeyVal (p : String × Nat) : Nat := (parseDigits p.1.data).getD 0

def idxOrder (p q : String × Nat) : Prop := idxKeyVal p ≤ idxKeyVal q

instance : DecidableRel idxOrder := fun _ _ => by unfold idxOrder; infer_instance

instance : IsTotal (String × Nat) idxOrder := ⟨fun p q => Nat.le_total _ _⟩

instance : IsTrans (String × Nat) idxOrder := ⟨fun _ _ _ => Nat.le_trans⟩

/-- `Object.entries` own-property order on a plain object: array-index
keys first in ascending numeric order, then the remaining string keys in
insertion order. -/
def objectEntries (fs : List (String × Nat)) : List (String × Nat) :=
  List.insertionSort idxOrder (fs.filter (fun p => isArrayIndexKey p.1)) ++
    fs.filter (fun p => !isArrayIndexKey p.1)

/-- The `(a, b) => b[1] - a[1]` comparator as a "stays before" relation:
descending by count. -/
def countOrder (p q : String × Nat) : Prop := q.2 ≤ p.2

instance : DecidableRel countOrder := fun _ _ => by unfold countOrder; infer_instance

instance : IsTotal (String × Nat) countOrder := ⟨fun p q => Nat.le_total _ _⟩

instance : IsTrans (String × Nat) countOrder := ⟨fun _ _ _ h h2 => Nat.le_trans h2 h⟩

/-- `extractTrendingTopics(articles, limit)`: count keywords, sort the
entries by descending count (stable), take `limit`, keep the keys. -/
def extractTrendingTopics (articles : List Article) (limit : Nat) : List String :=
  ((List.insertionSort countOrder (objectEntries (keywordCountList articles))).take
    limit).map Prod.fst

/-- JavaScript `ToNumber` on the values that can reach the quality
score's length comparisons: numbers, booleans, `null` and integer
strings convert; `undefined` is `NaN`; arrays/objects (string-coerced
first by JavaScript) and non-integer numeric strings are a model
boundary, treated as `NaN`. -/
def jsToNumber (v : JsVal) : Option Int :=
  match v with
  | .num n => some n
  | .bool b => some (if b then 1 else 0)
  | .null => some 0
  | .str s =>
    let cs := ((s.data.dropWhile Char.isWhitespace).reverse.dropWhile
      Char.isWhitespace).reverse
    (match cs with
     | [] => some 0
     | '-' :: rest => (parseDigits rest).map (fun n => -(n : Int))
     | '+' :: rest => (parseDigits rest).map (fun n => (n : Int))
     | _ => (parseDigits cs).map (fun n => (n : Int)))
  | _ => none

/-- JavaScript `v > k` for a numeric literal `k`: `NaN` comparisons are
false. -/
def jsGTnum (v : JsVal) (k : Int) : Bool :=
  match jsToNumber v with
  | some n => k < n
  | none => false

/-- JavaScript `v.length` as a value: string/array lengths, a `length`
own-property on objects, `undefined` elsewhere. -/
def JsVal.lengthProp : JsVal → JsVal
  | .str s => .num s.length
  | .arr xs => .num xs.length
  | .obj fs =>
    (match fs.lookup "length" with
     | some v => v
     | none => .undefined)
  | _ => .undefined

/-- `calculateQualityScore(article)`: base 50 plus bonuses, clamped into
[0, 100]. -/
def calculateQualityScore (article : Article) : Int :=
  let score : Int := 50
  let score := score + (if article.imageUrl.truthy then 10 else 0)
  let score := score + (if article.author.truthy then 10 else 0)
  let contentLength := (jsOr article.content (.str "")).lengthProp
  let score := score +
    (if jsGTnum contentLength 500 then 15
     else if jsGTnum contentLength 200 then 10
     else if jsGTnum contentLength 50 then 5 else 0)
  let score := score + (if article.categories.length > 1 then 5 else 0)
  let score := score + (if article.tags.length > 2 then 5 else 0)
  let sentiment := article.normalized.sentimentTenths
  let score := score + (if sentiment.natAbs < 3 then 5 else 0)
  min 100 (max 0 score)

/-- Truthiness of the five required fields `id`, `title`, `url`,
`source`, `publishedAt` (in that order).  `id` is a synthesized string,
so its truthiness is non-emptiness; `source` is an object literal, hence
always truthy. -/
def requiredFieldChecks (a : Article) : List Bool :=
  [decide (a.id ≠ ""), a.title.truthy, a.url.truthy, true, a.publishedAt.truthy]

/-- `validateArticle(article)`: true iff no required field is falsy. -/
def validateArticle (a : Article) : Bool :=
  ((requiredFieldChecks a).filter (fun b => !b)).isEmpty

/-- `v?.replace(/[<>]/g, "")`: `undefined` on a nullish receiver, angle
stripping on strings, a `TypeError` on anything else. -/
def jsStripAngle : JsVal → Except Unit JsVal
  | .undefined => .ok .undefined
  | .null => .ok .undefined
  | .str s => .ok (.str (stripAngles s))
  | _ => .error ()

/-- `sanitizeArticle(article)`: spread the article and re-bind the six
free-text fields through angle stripping with their defaults. -/
def sanitizeArticle (a : Article) : Except Unit Article := do
  let title ← jsStripAngle a.title
  let description ← jsStripAngle a.description
  let content ← jsStripAngle a.content
  let url ← jsStripAngle a.url
  let imageUrl ← jsStripAngle a.imageUrl
  let author ← jsStripAngle a.author
  pure { a with
    title := jsOr title (.str "Untitled")
    description := jsOr description (.str "")
    content := jsOr content (.str "")
    url := jsOr url (.str "#")
    imageUrl := jsOr imageUrl .null
    author := jsOr author .null }

/-- The provider text that `normalizeGuardianArticle` actually feeds the
reading-time estimate (`fields.trailText || article.webTitle || ""`,
source lines 51 and 62), re-extracted for specification purposes. -/
def guardianRTText (article : JsVal) : Except Unit JsVal := do
  let fieldsRaw ← article.getProp "fields"
  let fields := jsOr fieldsRaw (.obj [])
  let trailText ← fields.getProp "trailText"
  let webTitle ← article.getProp "webTitle"
  pure (jsOr trailText (jsOr webTitle (.str "")))

/-- The provider text that `normalizeNewsAPIArticle` feeds the
reading-time estimate (`content || description || title || ""`,
source line 105). -/
def newsapiRTText (article : JsVal) : Except Unit JsVal := do
  let contentV ← article.getProp "content"
  let descV ← article.getProp "description"
  let titleV ← article.getProp "title"
  pure (jsOr contentV (jsOr descV (jsOr titleV (.str ""))))

/-- The reading-time formula exactly as claim C5 words it, over the
Unified Article's own `content` and `description` fields (a
specification-side definition, for comparison with the implementation). -/
def claimReadingTime (a : Article) : Nat :=
  max 1 (((jsSplitChar ' ' (jsToString (jsOr a.content a.description))).length + 199) / 200)

/-- Keep the first occurrence of each element (specification-side
formalization of "first-seen order"). -/
def firstOccGo (seen : List String) : List String → List String
  | [] => []
  | k :: rest =>
    if k ∈ seen then firstOccGo seen rest
    else k :: firstOccGo (k :: seen) rest

def firstOccurrences (l : List String) : List String := firstOccGo [] l

/-- All keywords of a batch, in article order. -/
def kwStream (articles : List Article) : List String :=
  (articles.map (fun a => a.normalized.keywords)).flatten

/-- Total number of occurrences of keyword `k` across a batch. -/
def kwCount (articles : List Article) (k : String) : Nat :=
  (kwStream articles).count k

/-- The keyword-count object built directly from the flattened keyword
stream (proved below to coincide with `keywordCountList`). -/
def buildCount (ks : List String) : List (String × Nat) := ks.foldl bumpKeyword []

/-- Sort key for the descending-date sort: invalid dates map to 0.  On
batches whose dates all parse (the only case in which the JavaScript
comparator is consistent), `mergeRelTotal` agrees with `mergeRel`. -/
def mergeDescKey (a : Article) : Int := (jsDateValue a.publishedAt).getD 0

def mergeRelTotal (a b : Article) : Prop := mergeDescKey b ≤ mergeDescKey a

instance : DecidableRel mergeRelTotal := fun _ _ => by unfold mergeRelTotal; infer_instance

instance : IsTotal Article mergeRelTotal := ⟨fun _ _ => Int.le_total _ _⟩

instance : IsTrans Article mergeRelTotal := ⟨fun _ _ _ h h2 => Int.le_trans h2 h⟩

/-- A plain well-formed Unified Article used as the base of the concrete
test inputs below. -/
def plainArticle : Article where
  id := "x"
  title := .str "t"
  description := .str ""
  content := .str ""
  url := .str "u"
  imageUrl := .null
  source := ⟨"guardian", .str "The Guardian"⟩
  author := .null
  publishedAt := .str "2024-01-01T00:00:00Z"
  categories := [.str "General"]
  tags := []
  normalized := ⟨1, 0, []⟩

/-- A 201-word body (ceil(201 / 200) = 2 reading minutes). -/
def wordsFiller : String := String.intercalate " " (List.replicate 201 "w")

/-- Guardian raw payload whose `fields.body` has 201 words while the
reading-time source text (`trailText || webTitle`) has one word. -/
def rawLongBody : JsVal :=
  .obj [("webTitle", .str "t"), ("fields", .obj [("body", .str wordsFiller)])]

/-- The round-trip Guardian payload from the specification. -/
def rawGuardianX : JsVal :=
  .obj [("webTitle", .str "X"), ("webUrl", .str "https://g/1"),
    ("webPublicationDate", .str "2024-01-01T00:00:00Z"),
    ("fields", .obj [("trailText", .str "hello world")])]

/-- A NewsAPI raw payload with lexicon hits in its content. -/
def rawNewsGood : JsVal :=
  .obj [("title", .str "Hello World News"), ("url", .str "https://n/1"),
    ("description", .str "A good day"), ("content", .str "It was a good day indeed")]

/-- A Guardian raw item whose transformer succeeds but whose numeric
`fields.body` makes `calculateSentiment` throw inside the per-item
closure of `normalizeArticles`. -/
def badGuardianItem : JsVal := .obj [("fields", .obj [("body", .num 1)])]

/-- Two articles with the same `id` but different urls: both survive the
url-keyed dedup. -/
def dupIdArticleA : Article :=
  { plainArticle with id := "dup", url := .str "https://a/1" }

def dupIdArticleB : Article :=
  { plainArticle with
      id := "dup"
      url := .str "https://b/2"
      publishedAt := .str "2024-02-01T00:00:00Z" }

/-- An article whose keywords are array-index-shaped strings: JavaScript
object key ordering enumerates them numerically ascending, not in
first-seen order. -/
def numKeyArticle : Article :=
  { plainArticle with normalized := ⟨1, 0, ["9999", "1000"]⟩ }

/-- The article of the claim's trending-topics scenario: keywords
`["a", "b", "a"]`. -/
def tieArticle : Article :=
  { plainArticle with normalized := ⟨1, 0, ["a", "b", "a"]⟩ }

/-- An article carrying angle brackets in its title. -/
def scriptTitleArticle : Article :=
  { plainArticle with title := .str "<script>x</script>" }

/-- Concrete merge input: `[[a, b], [b, c]]` where `b` recurs. -/
def mergeBatchA : Article := { plainArticle with url := .str "https://m/a" }

def mergeBatchB : Article :=
  { plainArticle with
      url := .str "https://m/b"
      publishedAt := .str "2024-03-01T00:00:00Z" }

def mergeBatchC : Article :=
  { plainArticle with
      url := .str "https://m/c"
      publishedAt := .str "2024-02-01T00:00:00Z" }

/-- The result of sanitizing `scriptTitleArticle` (used by the C9
witness). -/
def sanitizedScriptArticle : Article :=
  { scriptTitleArticle with title := .str "scriptx/script" }

theorem str_ne_empty_of_length {s : String} (h : s.length ≠ 0) : s ≠ "" :=
  fun he => h (by rw [he]; rfl)

theorem toISOString_ne_empty (now : Nat) : toISOString now ≠ "" := by
  apply str_ne_empty_of_length
  have hz : ("Z" : String).length = 1 := rfl
  simp only [toISOString, String.length_append, hz]
  omega

theorem truthy_str_iff {s : String} : (JsVal.str s).truthy = true ↔ s ≠ "" := by
  simp [JsVal.truthy]

theorem jsOr_truthy {v d : JsVal} (hd : d.truthy = true) : (jsOr v d).truthy = true := by
  unfold jsOr
  split <;> simp_all

theorem validateArticle_iff (a : Article) :
    validateArticle a = true ↔
      (a.id ≠ "" ∧ a.title.truthy = true ∧ a.url.truthy = true ∧
        a.publishedAt.truthy = true) := by
  unfold validateArticle requiredFieldChecks
  by_cases h0 : a.id = "" <;>
    cases h1 : a.title.truthy <;> cases h2 : a.url.truthy <;>
      cases h3 : a.publishedAt.truthy <;>
    simp_all [List.filter, List.isEmpty]

theorem validateArticle_fallback (sid : String) (i now : Nat) :
    validateArticle (createFallbackArticle sid i now) = true := by
  rw [validateArticle_iff]
  refine ⟨?_, rfl, rfl, ?_⟩
  · apply str_ne_empty_of_length
    have h10 : ("-fallback-" : String).length = 10 := rfl
    simp only [createFallbackArticle, String.length_append, h10]
    omega
  · exact truthy_str_iff.mpr (toISOString_ne_empty now)

theorem except_bind_ok {α β : Type} {ma : Except Unit α} {f : α → Except Unit β} {b : β} :
    (ma >>= f) = .ok b ↔ ∃ a, ma = .ok a ∧ f a = .ok b := by
  cases ma <;> simp [Bind.bind, Except.bind]

theorem except_pure_ok {α : Type} {x y : α} :
    (pure x : Except Unit α) = .ok y ↔ x = y := by
  simp [pure, Except.pure]

theorem mem_mapIdxGo {α β : Type} {f : Nat → α → β} {i : Nat} {l : List α} {y : β}
    (h : y ∈ mapIdxGo f i l) : ∃ j x, x ∈ l ∧ y = f j x := by
  induction l generalizing i with
  | nil => simp [mapIdxGo] at h
  | cons a rest ih =>
    simp only [mapIdxGo, List.mem_cons] at h
    rcases h with h | h
    · exact ⟨i, a, List.mem_cons_self a rest, h⟩
    · obtain ⟨j, x, hx, hy⟩ := ih h
      exact ⟨j, x, List.mem_cons_of_mem a hx, hy⟩

/-- C10: for every article, `calculateQualityScore` lies in [50, 100]:
the base of 50 plus only non-negative bonuses (10 + 10 + 15 + 5 + 5 + 5
at most) makes both the lower clamp to 0 and any value below 50
unreachable, and the result is a fortiori within the documented
[0, 100]. -/
theorem calculateQualityScore_bounds (a : Article) :
    50 ≤ calculateQualityScore a ∧ calculateQualityScore a ≤ 100 := by
  unfold calculateQualityScore
  dsimp only
  split_ifs <;> omega

/-- C4 (amended): an unknown source key does not fail the call: every
item of the batch becomes the structurally valid generic fallback record
whose source id and name are the literal string `"unknown"` (not the key
that was passed in). -/
theorem unknown_source_fallback (xs : List JsVal) (sourceId : String) (now : Nat)
    (h : SOURCE_CONFIGS sourceId = none) :
    normalizeArticles (.arr xs) sourceId now =
      mapIdxGo (fun i _ => createFallbackArticle "unknown" i now) 0 xs ∧
    ∀ a ∈ normalizeArticles (.arr xs) sourceId now, validateArticle a = true := by
  have he : normalizeArticles (.arr xs) sourceId now =
      mapIdxGo (fun i _ => createFallbackArticle "unknown" i now) 0 xs := by
    unfold normalizeArticles
    rw [h]
  refine ⟨he, ?_⟩
  rw [he]
  intro a ha
  obtain ⟨j, b, _, rfl⟩ := mem_mapIdxGo ha
  exact validateArticle_fallback _ _ _

/-- C4 counterexample: with the unknown key `"rss"`, the fallback's
source name is the literal `"unknown"`, not an echo of the key that was
passed in. -/
theorem unknown_source_name_counterexample :
    (normalizeArticles (.arr [.obj []]) "rss" 0).map (fun a => a.source.name) =
      [.str "unknown"] ∧ JsVal.str "unknown" ≠ JsVal.str "rss" := by
  decide

theorem unknown_source_fallback_witness :
    normalizeArticles (.arr [.obj []]) "rss" 0 =
      mapIdxGo (fun i _ => createFallbackArticle "unknown" i 0) 0 ([.obj []] : List JsVal) :=
  (unknown_source_fallback [.obj []] "rss" 0 rfl).1

theorem dedupeByKey_keys_nodup (l : List Article) :
    ∀ seen : List JsVal,
      ((dedupeByKey seen l).map articleKey).Nodup ∧
        ∀ k ∈ (dedupeByKey seen l).map articleKey, k ∉ seen := by
  induction l with
  | nil => intro seen; simp [dedupeByKey]
  | cons a rest ih =>
    intro seen
    unfold dedupeByKey
    split
    · exact ih seen
    · next hnot =>
      obtain ⟨hn, hs⟩ := ih (articleKey a :: seen)
      refine ⟨?_, ?_⟩
      · simp only [List.map_cons, List.nodup_cons]
        exact ⟨fun hmem => (hs _ hmem) (List.mem_cons_self _ _), hn⟩
      · intro k hk
        simp only [List.map_cons, List.mem_cons] at hk
        rcases hk with rfl | hk
        · exact hnot
        · exact fun hin => (hs k hk) (List.mem_cons_of_mem _ hin)

/-- C6 (amended): within a merged batch, the dedup key (`url`, or
`title-source.id` when the url is `"#"`) is unique; the `id` field
itself need not be (see the counterexample). -/
theorem merge_keys_nodup (batches : List (List Article)) :
    ((mergeAndDeduplicateArticles batches).map articleKey).Nodup := by
  unfold mergeAndDeduplicateArticles
  have hperm := (List.perm_insertionSort mergeRel (dedupeByKey [] batches.flatten)).map articleKey
  exact hperm.nodup_iff.mpr (dedupeByKey_keys_nodup batches.flatten []).1

/-- C6 counterexample: two distinct articles that share an `id` but have
different urls both survive the url-keyed dedup, so `id` is not unique
within the merged batch. -/
theorem merge_id_not_unique_counterexample :
    ¬ ((mergeAndDeduplicateArticles [[dupIdArticleA], [dupIdArticleB]]).map Article.id).Nodup := by
  decide

theorem stripAngles_data (s : String) :
    (stripAngles s).data = s.data.filter (fun c => c ≠ '<' && c ≠ '>') := rfl

theorem stripAngles_idem (s : String) : stripAngles (stripAngles s) = stripAngles s := by
  apply String.ext
  rw [stripAngles_data, stripAngles_data, List.filter_filter]
  congr 1
  funext c
  by_cases h1 : c = '<' <;> by_cases h2 : c = '>' <;> simp [h1, h2]

theorem jsStripAngle_ok {x y : JsVal} (h : jsStripAngle x = .ok y) :
    y = .undefined ∨ ∃ s, y = .str (stripAngles s) := by
  cases x <;> simp [jsStripAngle] at h
  · exact Or.inl h.symm
  · exact Or.inl h.symm
  · next s => exact Or.inr ⟨s, h.symm⟩

theorem except_bind_ok_reduce {α β : Type} (a : α) (f : α → Except Unit β) :
    ((Except.ok a : Except Unit α) >>= f) = f a := rfl

/-- After one sanitation pass a field value is a fixed point: stripping
it again succeeds and re-applying the default produces the same value.
`d` ranges over the four defaults (`"Untitled"`, `""`, `"#"`, `null`). -/
theorem sanitize_refix {y d : JsVal}
    (hy : y = .undefined ∨ ∃ s, y = .str (stripAngles s))
    (hd : d = .null ∨ ∃ u, d = .str u ∧ stripAngles u = u) :
    ∃ z, jsStripAngle (jsOr y d) = .ok z ∧ jsOr z d = jsOr y d := by
  have hstep : ∀ w : JsVal, jsOr w d = w ∨ jsOr w d = d := by
    intro w
    unfold jsOr
    split
    · exact Or.inl rfl
    · exact Or.inr rfl
  have hdfix : ∃ z, jsStripAngle d = .ok z ∧ jsOr z d = d := by
    rcases hd with rfl | ⟨u, rfl, hu⟩
    · exact ⟨.undefined, rfl, rfl⟩
    · refine ⟨.str u, by simp [jsStripAngle, hu], ?_⟩
      unfold jsOr
      split <;> rfl
  rcases hy with rfl | ⟨s, rfl⟩
  · simpa [jsOr, JsVal.truthy] using hdfix
  · by_cases hs : stripAngles s = ""
    · rw [show jsOr (.str (stripAngles s)) d = d by simp [jsOr, JsVal.truthy, hs]]
      exact hdfix
    · rw [show jsOr (.str (stripAngles s)) d = .str (stripAngles s) by
        simp [jsOr, JsVal.truthy, hs]]
      refine ⟨.str (stripAngles s), by simp [jsStripAngle, stripAngles_idem], ?_⟩
      simp [jsOr, JsVal.truthy, hs]

/-- C9: sanitizeArticle is idempotent: whenever one application
succeeds, applying it to the result reproduces that result exactly
(angle stripping and the `"Untitled"`/`""`/`"#"`/`null` defaults are a
fixed point after one pass). -/
theorem sanitizeArticle_idem (a b : Article) (h : sanitizeArticle a = .ok b) :
    sanitizeArticle b = .ok b := by
  unfold sanitizeArticle at h
  rw [except_bind_ok] at h; obtain ⟨t1, h1, h⟩ := h
  rw [except_bind_ok] at h; obtain ⟨t2, h2, h⟩ := h
  rw [except_bind_ok] at h; obtain ⟨t3, h3, h⟩ := h
  rw [except_bind_ok] at h; obtain ⟨t4, h4, h⟩ := h
  rw [except_bind_ok] at h; obtain ⟨t5, h5, h⟩ := h
  rw [except_bind_ok] at h; obtain ⟨t6, h6, h⟩ := h
  rw [except_pure_ok] at h
  subst h
  obtain ⟨z1, hz1, hw1⟩ := sanitize_refix (jsStripAngle_ok h1)
    (Or.inr ⟨"Untitled", rfl, by decide⟩)
  obtain ⟨z2, hz2, hw2⟩ := sanitize_refix (jsStripAngle_ok h2) (Or.inr ⟨"", rfl, by decide⟩)
  obtain ⟨z3, hz3, hw3⟩ := sanitize_refix (jsStripAngle_ok h3) (Or.inr ⟨"", rfl, by decide⟩)
  obtain ⟨z4, hz4, hw4⟩ := sanitize_refix (jsStripAngle_ok h4) (Or.inr ⟨"#", rfl, by decide⟩)
  obtain ⟨z5, hz5, hw5⟩ := sanitize_refix (jsStripAngle_ok h5) (Or.inl rfl)
  obtain ⟨z6, hz6, hw6⟩ := sanitize_refix (jsStripAngle_ok h6) (Or.inl rfl)
  unfold sanitizeArticle
  simp only [hz1, hz2, hz3, hz4, hz5, hz6, except_bind_ok_reduce, except_pure_ok]
  simp [hw1, hw2, hw3, hw4, hw5, hw6]

theorem sanitizeArticle_idem_witness :
    sanitizeArticle sanitizedScriptArticle = .ok sanitizedScriptArticle :=
  sanitizeArticle_idem scriptTitleArticle sanitizedScriptArticle (by decide)

theorem jsSplitSpaceStr_ok {v : JsVal} {w : List String}
    (h : jsSplitSpaceStr v = .ok w) : ∃ s, v = .str s ∧ w = jsSplitChar ' ' s := by
  cases v <;> simp [jsSplitSpaceStr] at h
  next s => exact ⟨s, rfl, h.symm⟩

/-- Shape of every successful `guardianBody` result: the required fields
are truthy, the transformer leaves sentiment at 0, and the reading time
comes from the provider text `fields.trailText || webTitle || ""`. -/
theorem guardianBody_ok {article : JsVal} {index now : Nat} {art : Article}
    (h : guardianBody article index now = .ok art) :
    art.id ≠ "" ∧ art.title.truthy = true ∧ art.url.truthy = true ∧
      art.publishedAt.truthy = true ∧ art.normalized.sentimentTenths = 0 ∧
      (∃ s : String, guardianRTText article = .ok (.str s) ∧
        art.normalized.readingTime = max 1 (((jsSplitChar ' ' s).length + 199) / 200)) := by
  unfold guardianBody at h
  simp only [except_bind_ok, except_pure_ok] at h
  obtain ⟨fieldsRaw, hFields, tagsRaw, hTags, authorTag, hAT, author, hAu, idRaw, hId,
    trailText, hTrail, webTitle, hWT, words, hWords, sectionName, hSec, keywords, hKw,
    headline, hHead, body, hBody, webUrl, hUrl, thumbnail, hThumb, webPubDate, hPub,
    tagTitles, hTT, hrec⟩ := h
  subst hrec
  obtain ⟨s, harg, hws⟩ := jsSplitSpaceStr_ok hWords
  refine ⟨?_, ?_, ?_, ?_, rfl, s, ?_, ?_⟩
  · apply str_ne_empty_of_length
    have h9 : ("guardian-" : String).length = 9 := rfl
    simp only [String.length_append, h9]
    omega
  · exact jsOr_truthy (by decide)
  · exact jsOr_truthy (by decide)
  · exact jsOr_truthy (truthy_str_iff.mpr (toISOString_ne_empty now))
  · simp only [guardianRTText, hFields, hTrail, hWT, except_bind_ok_reduce]
    rw [show (pure (jsOr trailText (jsOr webTitle (.str ""))) : Except Unit JsVal) =
      .ok (jsOr trailText (jsOr webTitle (.str ""))) from rfl, harg]
  · simp only [hws]

/-- Shape of every successful `newsapiBody` result. -/
theorem newsapiBody_ok {article : JsVal} {index now : Nat} {art : Article}
    (h : newsapiBody article index now = .ok art) :
    art.id ≠ "" ∧ art.title.truthy = true ∧ art.url.truthy = true ∧
      art.publishedAt.truthy = true ∧ art.normalized.sentimentTenths = 0 ∧
      (∃ s : String, newsapiRTText article = .ok (.str s) ∧
        art.normalized.readingTime = max 1 (((jsSplitChar ' ' s).length + 199) / 200)) := by
  unfold newsapiBody at h
  simp only [except_bind_ok, except_pure_ok] at h
  obtain ⟨urlV, hUrl, idStr, hId, contentV, hContent, descV, hDesc, titleV, hTitle,
    words, hWords, keywords, hKw, urlToImage, hImg, srcV, hSrc, authorV, hAu,
    pubV, hPub, hrec⟩ := h
  subst hrec
  obtain ⟨s, harg, hws⟩ := jsSplitSpaceStr_ok hWords
  have hid : idStr ≠ "" := by
    have h8 : ("newsapi-" : String).length = 8 := rfl
    split at hId
    · rw [except_bind_ok] at hId
      obtain ⟨bytes, _, hId⟩ := hId
      rw [except_pure_ok] at hId
      subst hId
      apply str_ne_empty_of_length
      simp only [String.length_append, h8]
      omega
    · rw [except_pure_ok] at hId
      subst hId
      apply str_ne_empty_of_length
      simp only [String.length_append, h8]
      omega
  refine ⟨hid, ?_, ?_, ?_, rfl, s, ?_, ?_⟩
  · exact jsOr_truthy (by decide)
  · exact jsOr_truthy (by decide)
  · exact jsOr_truthy (truthy_str_iff.mpr (toISOString_ne_empty now))
  · simp only [newsapiRTText, hContent, hDesc, hTitle, except_bind_ok_reduce]
    rw [show (pure (jsOr contentV (jsOr descV (jsOr titleV (.str "")))) : Except Unit JsVal) =
      .ok (jsOr contentV (jsOr descV (jsOr titleV (.str "")))) from rfl, harg]
  · simp only [hws]

theorem validate_normalizeGuardianArticle (raw : JsVal) (i now : Nat) :
    validateArticle (normalizeGuardianArticle raw i now) = true := by
  unfold normalizeGuardianArticle
  split
  · next heq =>
    obtain ⟨h1, h2, h3, h4, _, _⟩ := guardianBody_ok heq
    exact (validateArticle_iff _).mpr ⟨h1, h2, h3, h4⟩
  · exact validateArticle_fallback _ _ _

theorem validate_normalizeNewsAPIArticle (raw : JsVal) (i now : Nat) :
    validateArticle (normalizeNewsAPIArticle raw i now) = true := by
  unfold normalizeNewsAPIArticle
  split
  · next heq =>
    obtain ⟨h1, h2, h3, h4, _, _⟩ := newsapiBody_ok heq
    exact (validateArticle_iff _).mpr ⟨h1, h2, h3, h4⟩
  · exact validateArticle_fallback _ _ _

theorem sent_normalizeGuardianArticle (raw : JsVal) (i now : Nat) :
    (normalizeGuardianArticle raw i now).normalized.sentimentTenths = 0 := by
  unfold normalizeGuardianArticle
  split
  · next heq => exact (guardianBody_ok heq).2.2.2.2.1
  · rfl

theorem sent_normalizeNewsAPIArticle (raw : JsVal) (i now : Nat) :
    (normalizeNewsAPIArticle raw i now).normalized.sentimentTenths = 0 := by
  unfold normalizeNewsAPIArticle
  split
  · next heq => exact (newsapiBody_ok heq).2.2.2.2.1
  · rfl

theorem calculateSentiment_ok_bounds {v : JsVal} {s : Int}
    (h : calculateSentiment v = .ok s) : -10 ≤ s ∧ s ≤ 10 := by
  unfold calculateSentiment at h
  split at h
  · rw [show (Except.ok 0 : Except Unit Int) = .ok s ↔ 0 = s by simp] at h
    omega
  · split at h
    · next t =>
      rw [show ∀ x : Int, (Except.ok x : Except Unit Int) = .ok s ↔ x = s by simp] at h
      rw [← h]
      constructor
      · exact le_max_left _ _
      · exact max_le (by norm_num) (min_le_left _ _)
    · exact absurd h (by simp)

/-- What the per-item closure can do to a transformer result: the five
identity-relevant fields are untouched, and sentiment is either left
alone or replaced by a clamped `calculateSentiment` value. -/
theorem transformBody_ok {config : SourceConfig} {a : JsVal} {i now : Nat} {art : Article}
    (h : transformBody config a i now = .ok art) :
    art.id = (config.transformer a i now).id ∧
    art.title = (config.transformer a i now).title ∧
    art.url = (config.transformer a i now).url ∧
    art.publishedAt = (config.transformer a i now).publishedAt ∧
    art.normalized.readingTime = (config.transformer a i now).normalized.readingTime ∧
    art.normalized.keywords = (config.transformer a i now).normalized.keywords ∧
    (art.normalized.sentimentTenths =
        (config.transformer a i now).normalized.sentimentTenths ∨
      (-10 ≤ art.normalized.sentimentTenths ∧ art.normalized.sentimentTenths ≤ 10)) := by
  unfold transformBody at h
  dsimp only at h
  split at h
  · rw [except_bind_ok] at h
    obtain ⟨s, hs, h⟩ := h
    rw [except_pure_ok] at h
    subst h
    refine ⟨rfl, rfl, rfl, rfl, rfl, rfl, Or.inr (calculateSentiment_ok_bounds hs)⟩
  · rw [except_pure_ok] at h
    subst h
    exact ⟨rfl, rfl, rfl, rfl, rfl, rfl, Or.inl rfl⟩

theorem validate_transformItem {config : SourceConfig} {sourceId : String}
    (hc : SOURCE_CONFIGS sourceId = some config) (a : JsVal) (i now : Nat) :
    validateArticle (transformItem config sourceId a i now) = true := by
  have htr : config.transformer = normalizeGuardianArticle ∨
      config.transformer = normalizeNewsAPIArticle := by
    unfold SOURCE_CONFIGS at hc
    split_ifs at hc <;> simp_all
    · exact Or.inl (congrArg SourceConfig.transformer hc.symm)
    · exact Or.inr (congrArg SourceConfig.transformer hc.symm)
  unfold transformItem
  split
  · next heq =>
    obtain ⟨h1, h2, h3, h4, _, _, _⟩ := transformBody_ok heq
    have hv : validateArticle (config.transformer a i now) = true := by
      rcases htr with h | h <;> rw [h]
      · exact validate_normalizeGuardianArticle a i now
      · exact validate_normalizeNewsAPIArticle a i now
    rw [validateArticle_iff] at hv ⊢
    rw [h1, h2, h3, h4]
    exact hv
  · exact validateArticle_fallback _ _ _

theorem sent_fallback (sid : String) (i now : Nat) :
    (createFallbackArticle sid i now).normalized.sentimentTenths = 0 := rfl

/-- C1: for every raw input value (arbitrary JavaScript data, including
the empty object) and every source identifier, `normalizeArticle`
returns a record satisfying `validateArticle`: the required fields
`id`, `title`, `url`, `source` and `publishedAt` are all truthy.
Totality of the embedding (all throw sites are caught by the modeled
`try/catch` blocks) captures that no exception escapes the function
boundary. -/
theorem normalizeArticle_validates (raw : JsVal) (sourceId : String) (now : Nat) :
    validateArticle (normalizeArticle raw sourceId now) = true := by
  unfold normalizeArticle normalizeArticles
  cases hc : SOURCE_CONFIGS sourceId with
  | none =>
    simp only [hc, mapIdxGo, List.head?_cons, articleIsTruthy, if_true]
    exact validateArticle_fallback _ _ _
  | some config =>
    simp only [hc, mapIdxGo, List.filter, articleIsTruthy, List.head?_cons, if_true]
    exact validate_transformItem hc raw 0 now

theorem length_mapIdxGo {α β : Type} (f : Nat → α → β) (i : Nat) (l : List α) :
    (mapIdxGo f i l).length = l.length := by
  induction l generalizing i with
  | nil => rfl
  | cons a rest ih => simp [mapIdxGo, ih]

theorem get?_mapIdxGo {α β : Type} (f : Nat → α → β) (i j : Nat) (l : List α) :
    (mapIdxGo f i l).get? j = (l.get? j).map (f (i + j)) := by
  induction l generalizing i j with
  | nil => simp [mapIdxGo]
  | cons a rest ih =>
    cases j with
    | zero => simp [mapIdxGo]
    | succ j =>
      have harith : i + 1 + j = i + (j + 1) := by omega
      simp only [mapIdxGo, List.get?_cons_succ, ih (i + 1) j, harith]

theorem filter_articleIsTruthy (l : List Article) : l.filter articleIsTruthy = l :=
  List.filter_eq_self.mpr (fun _ _ => rfl)

/-- C2: for every array input and every sourceId, the output of
`normalizeArticles` has exactly the length of the input (the trailing
`filter(Boolean)` removes nothing, since an article object is always
truthy), and whenever the per-item closure throws for the item at index
`i` — the only throw site the per-item `try/catch` can see — the output
at index `i` is exactly the fallback record for that index, so one
item's failure never aborts the batch. -/
theorem normalizeArticles_length_and_fallback (xs : List JsVal) (sourceId : String)
    (now : Nat) :
    (normalizeArticles (.arr xs) sourceId now).length = xs.length ∧
    (∀ config, SOURCE_CONFIGS sourceId = some config →
      ∀ i x, xs.get? i = some x →
        transformBody config x i now = .error () →
        (normalizeArticles (.arr xs) sourceId now).get? i =
          some (createFallbackArticle sourceId i now)) := by
  constructor
  · unfold normalizeArticles
    cases hc : SOURCE_CONFIGS sourceId with
    | none => simp only [hc, length_mapIdxGo]
    | some config => simp only [hc, filter_articleIsTruthy, length_mapIdxGo]
  · intro config hc i x hx herr
    unfold normalizeArticles
    simp only [hc, filter_articleIsTruthy]
    rw [get?_mapIdxGo]
    simp only [hx, Nat.zero_add, Option.map_some', Option.some.injEq]
    unfold transformItem
    rw [herr]

theorem normalizeArticles_fallback_witness :
    (normalizeArticles (.arr [badGuardianItem]) "guardian" 7).get? 0 =
      some (createFallbackArticle "guardian" 0 7) :=
  (normalizeArticles_length_and_fallback [badGuardianItem] "guardian" 7).2
    ⟨"The Guardian", "https://content.guardianapis.com", normalizeGuardianArticle,
      "guardian-"⟩ rfl 0 badGuardianItem rfl (by decide)

/-- C8: every article produced by `normalizeArticles` or
`normalizeArticle` carries a sentiment in [-1, 1] (in tenths:
`sentimentTenths` in [-10, 10]).  Transformer outputs leave it at 0, the
per-item closure installs the `calculateSentiment` value — the ±0.1-per
lexicon-hit sum clamped to [-1, 1] — and fallbacks carry 0. -/
theorem sentiment_in_range (sourceId : String) (now : Nat) :
    (∀ raws : JsVal, ∀ a ∈ normalizeArticles raws sourceId now,
      -10 ≤ a.normalized.sentimentTenths ∧ a.normalized.sentimentTenths ≤ 10) ∧
    (∀ raw : JsVal,
      -10 ≤ (normalizeArticle raw sourceId now).normalized.sentimentTenths ∧
        (normalizeArticle raw sourceId now).normalized.sentimentTenths ≤ 10) := by
  have hmain : ∀ raws : JsVal, ∀ a ∈ normalizeArticles raws sourceId now,
      -10 ≤ a.normalized.sentimentTenths ∧ a.normalized.sentimentTenths ≤ 10 := by
    intro raws a ha
    unfold normalizeArticles at ha
    cases raws
    case undefined => simp at ha
    case null => simp at ha
    case bool b => simp at ha
    case num n => simp at ha
    case str s => simp at ha
    case obj fs => simp at ha
    case arr xs =>
      cases hc : SOURCE_CONFIGS sourceId with
      | none =>
        simp only [hc] at ha
        obtain ⟨j, b, _, rfl⟩ := mem_mapIdxGo ha
        rw [sent_fallback]
        omega
      | some config =>
        simp only [hc, filter_articleIsTruthy] at ha
        obtain ⟨j, b, _, rfl⟩ := mem_mapIdxGo ha
        have htr : config.transformer = normalizeGuardianArticle ∨
            config.transformer = normalizeNewsAPIArticle := by
          unfold SOURCE_CONFIGS at hc
          split_ifs at hc <;> simp_all
          · exact Or.inl (congrArg SourceConfig.transformer hc.symm)
          · exact Or.inr (congrArg SourceConfig.transformer hc.symm)
        unfold transformItem
        split
        · next heq =>
          have hbase : (config.transformer b j now).normalized.sentimentTenths = 0 := by
            rcases htr with h | h <;> rw [h]
            · exact sent_normalizeGuardianArticle b j now
            · exact sent_normalizeNewsAPIArticle b j now
          rcases (transformBody_ok heq).2.2.2.2.2.2 with hsame | hb
          · rw [hsame, hbase]; omega
          · exact hb
        · rw [sent_fallback]; omega
  refine ⟨hmain, ?_⟩
  intro raw
  unfold normalizeArticle
  cases hl : normalizeArticles (.arr [raw]) sourceId now with
  | nil =>
    simp only [List.head?_nil]
    rw [sent_fallback]
    omega
  | cons a rest =>
    simp only [List.head?_cons, articleIsTruthy, if_true]
    exact hmain (.arr [raw]) a (by rw [hl]; exact List.mem_cons_self a rest)

theorem sentiment_in_range_witness :
    -10 ≤ (normalizeArticle rawNewsGood "newsapi" 0).normalized.sentimentTenths ∧
      (normalizeArticle rawNewsGood "newsapi" 0).normalized.sentimentTenths ≤ 10 :=
  (sentiment_in_range "newsapi" 0).1 (.arr [rawNewsGood])
    (normalizeArticle rawNewsGood "newsapi" 0) (by decide)

/-- C5 counterexample: a Guardian payload whose `fields.body` has 201
words but whose reading-time source text (`trailText || webTitle`) has
one word: the emitted readingTime is 1, while the claim's formula over
the unified record's own `content || description` gives 2. -/
theorem readingTime_formula_counterexample :
    (normalizeArticle rawLongBody "guardian" 0).normalized.readingTime = 1 ∧
    claimReadingTime (normalizeArticle rawLongBody "guardian" 0) = 2 ∧
    (normalizeArticle rawLongBody "guardian" 0).normalized.readingTime ≠
      claimReadingTime (normalizeArticle rawLongBody "guardian" 0) := by
  set_option maxRecDepth 40000 in decide

/-- C5 (amended): the reading time equals
`max(1, ceil(wordCount(t) / 200))` where `t` is the provider's own
reading-time source text — `fields.trailText || webTitle || ""` for
Guardian, `content || description || title || ""` for NewsAPI — not the
unified record's `content || description`; fallback records have
reading time 1. -/
theorem readingTime_from_provider_text :
    (∀ (raw : JsVal) (i now : Nat) (art : Article),
      guardianBody raw i now = .ok art →
      ∃ s : String, guardianRTText raw = .ok (.str s) ∧
        art.normalized.readingTime = max 1 (((jsSplitChar ' ' s).length + 199) / 200)) ∧
    (∀ (raw : JsVal) (i now : Nat) (art : Article),
      newsapiBody raw i now = .ok art →
      ∃ s : String, newsapiRTText raw = .ok (.str s) ∧
        art.normalized.readingTime = max 1 (((jsSplitChar ' ' s).length + 199) / 200)) ∧
    (∀ (sid : String) (i now : Nat),
      (createFallbackArticle sid i now).normalized.readingTime = 1) :=
  ⟨fun _ _ _ _ h => (guardianBody_ok h).2.2.2.2.2,
   fun _ _ _ _ h => (newsapiBody_ok h).2.2.2.2.2,
   fun _ _ _ => rfl⟩

theorem readingTime_from_provider_text_witness :
    (normalizeGuardianArticle rawGuardianX 0 0).normalized.readingTime =
      max 1 (((jsSplitChar ' ' "hello world").length + 199) / 200) := by
  obtain ⟨s, h1, h2⟩ := readingTime_from_provider_text.1 rawGuardianX 0 0
    (normalizeGuardianArticle rawGuardianX 0 0) (by decide)
  have h0 : guardianRTText rawGuardianX = .ok (.str "hello world") := by decide
  rw [h0] at h1
  have hs : "hello world" = s := JsVal.str.inj (Except.ok.inj h1)
  rw [h2, ← hs]

theorem mem_dedupeByKey {x : Article} :
    ∀ {l : List Article} {seen : List JsVal},
      x ∈ dedupeByKey seen l ↔
        (articleKey x ∉ seen ∧
          ∃ l1 l2, l = l1 ++ x :: l2 ∧ ∀ y ∈ l1, articleKey y ≠ articleKey x) := by
  intro l
  induction l with
  | nil =>
    intro seen
    constructor
    · intro h; exact absurd h (List.not_mem_nil x)
    · rintro ⟨-, l1, l2, h, -⟩; exact absurd h (by simp)
  | cons a rest ih =>
    intro seen
    unfold dedupeByKey
    split
    · next hin =>
      rw [ih]
      constructor
      · rintro ⟨hnot, l1, l2, hrest, hne⟩
        refine ⟨hnot, a :: l1, l2, by rw [hrest, List.cons_append], ?_⟩
        intro y hy
        rcases List.mem_cons.mp hy with rfl | hy
        · exact fun he => hnot (he ▸ hin)
        · exact hne y hy
      · rintro ⟨hnot, l1, l2, heq, hne⟩
        cases l1 with
        | nil =>
          simp only [List.nil_append, List.cons.injEq] at heq
          exact absurd (heq.1 ▸ hin) hnot
        | cons b l1 =>
          simp only [List.cons_append, List.cons.injEq] at heq
          obtain ⟨rfl, hrest⟩ := heq
          exact ⟨hnot, l1, l2, hrest, fun y hy => hne y (List.mem_cons_of_mem _ hy)⟩
    · next hnotin =>
      rw [List.mem_cons, ih]
      constructor
      · rintro (rfl | ⟨hnot, l1, l2, hrest, hne⟩)
        · exact ⟨hnotin, [], rest, rfl, by simp⟩
        · have hxa : articleKey x ≠ articleKey a :=
            fun he => hnot (by rw [he]; exact List.mem_cons_self _ _)
          have hxs : articleKey x ∉ seen := fun hm => hnot (List.mem_cons_of_mem _ hm)
          refine ⟨hxs, a :: l1, l2, by rw [hrest, List.cons_append], ?_⟩
          intro y hy
          rcases List.mem_cons.mp hy with rfl | hy
          · exact fun he => hxa he.symm
          · exact hne y hy
      · rintro ⟨hnot, l1, l2, heq, hne⟩
        cases l1 with
        | nil =>
          simp only [List.nil_append, List.cons.injEq] at heq
          exact Or.inl heq.1.symm
        | cons b l1 =>
          simp only [List.cons_append, List.cons.injEq] at heq
          obtain ⟨rfl, hrest⟩ := heq
          refine Or.inr ⟨?_, l1, l2, hrest, fun y hy => hne y (List.mem_cons_of_mem _ hy)⟩
          intro hm
          rcases List.mem_cons.mp hm with he | hm
          · exact hne a (List.mem_cons_self _ _) he.symm
          · exact hnot hm

theorem dedupe_subset {x : Article} {l : List Article} {seen : List JsVal}
    (h : x ∈ dedupeByKey seen l) : x ∈ l := by
  obtain ⟨-, l1, l2, rfl, -⟩ := mem_dedupeByKey.mp h
  simp

theorem orderedInsert_congr {α : Type} {r r2 : α → α → Prop} [DecidableRel r]
    [DecidableRel r2] {P : α → Prop}
    (hagree : ∀ x y, P x → P y → (r x y ↔ r2 x y)) {a : α} {l : List α}
    (ha : P a) (hl : ∀ x ∈ l, P x) :
    List.orderedInsert r a l = List.orderedInsert r2 a l := by
  induction l with
  | nil => rfl
  | cons b t ih =>
    have hb : P b := hl b (List.mem_cons_self _ _)
    by_cases hr : r a b
    · rw [List.orderedInsert, if_pos hr, List.orderedInsert,
        if_pos ((hagree a b ha hb).mp hr)]
    · rw [List.orderedInsert, if_neg hr, List.orderedInsert,
        if_neg (fun h2 => hr ((hagree a b ha hb).mpr h2)),
        ih (fun x hx => hl x (List.mem_cons_of_mem _ hx))]

theorem insertionSort_congr {α : Type} {r r2 : α → α → Prop} [DecidableRel r]
    [DecidableRel r2] {P : α → Prop}
    (hagree : ∀ x y, P x → P y → (r x y ↔ r2 x y)) :
    ∀ {l : List α}, (∀ x ∈ l, P x) → List.insertionSort r l = List.insertionSort r2 l := by
  intro l
  induction l with
  | nil => intro _; rfl
  | cons a t ih =>
    intro hl
    rw [List.insertionSort, List.insertionSort,
      ih (fun x hx => hl x (List.mem_cons_of_mem _ hx)),
      orderedInsert_congr hagree (hl a (List.mem_cons_self _ _))
        (fun x hx => hl x (List.mem_cons_of_mem _ ((List.mem_insertionSort r2).mp hx)))]

theorem mergeRel_agree {a b : Article} (ha : (jsDateValue a.publishedAt).isSome = true)
    (hb : (jsDateValue b.publishedAt).isSome = true) :
    mergeRel a b ↔ mergeRelTotal a b := by
  unfold mergeRel mergeRelTotal mergeLEb mergeDescKey
  cases hda : jsDateValue a.publishedAt with
  | none => rw [hda] at ha; simp at ha
  | some x =>
    cases hdb : jsDateValue b.publishedAt with
    | none => rw [hdb] at hb; simp at hb
    | some y => simp

/-- C3: `mergeAndDeduplicateArticles` flattens the batches and dedups by
key (url, or title-source.id when url is `"#"`) keeping exactly the
first occurrence of each key; when all dates parse it is sorted
descending by `publishedAt`; and on `[[a, b], [b, c]]` with `b`
recurring (keys of a, b, c distinct) the output holds exactly one `b`
and has length 3. -/
theorem merge_dedupe_sort_spec (batches : List (List Article)) :
    (∀ x, x ∈ mergeAndDeduplicateArticles batches ↔
      ∃ l1 l2, batches.flatten = l1 ++ x :: l2 ∧
        ∀ y ∈ l1, articleKey y ≠ articleKey x) ∧
    ((∀ a ∈ batches.flatten, (jsDateValue a.publishedAt).isSome = true) →
      (mergeAndDeduplicateArticles batches).Pairwise
        (fun a b => ∀ x y, jsDateValue a.publishedAt = some x →
          jsDateValue b.publishedAt = some y → y ≤ x)) ∧
    (∀ a b c : Article, articleKey a ≠ articleKey b → articleKey b ≠ articleKey c →
      articleKey a ≠ articleKey c →
      (mergeAndDeduplicateArticles [[a, b], [b, c]]).count b = 1 ∧
        (mergeAndDeduplicateArticles [[a, b], [b, c]]).length = 3) := by
  refine ⟨?_, ?_, ?_⟩
  · intro x
    unfold mergeAndDeduplicateArticles
    rw [List.mem_insertionSort, mem_dedupeByKey]
    simp
  · intro hparse
    have hsub : ∀ z ∈ dedupeByKey [] batches.flatten,
        (jsDateValue z.publishedAt).isSome = true :=
      fun z hz => hparse z (dedupe_subset hz)
    have hcong := @insertionSort_congr Article mergeRel mergeRelTotal _ _
      (fun z => (jsDateValue z.publishedAt).isSome = true)
      (fun x y hx hy => mergeRel_agree hx hy) _ hsub
    unfold mergeAndDeduplicateArticles
    rw [hcong]
    have hsorted := List.sorted_insertionSort mergeRelTotal (dedupeByKey [] batches.flatten)
    refine hsorted.imp_of_mem ?_
    intro a b hamem hbmem hab
    intro x y hdx hdy
    unfold mergeRelTotal mergeDescKey at hab
    rw [hdx, hdy] at hab
    simpa using hab
  · intro a b c hab hbc hac
    have hflat : ([[a, b], [b, c]] : List (List Article)).flatten = [a, b, b, c] := rfl
    have hded : dedupeByKey [] [a, b, b, c] = [a, b, c] := by
      simp [dedupeByKey, Ne.symm hab, Ne.symm hbc, Ne.symm hac]
    unfold mergeAndDeduplicateArticles
    dsimp only
    rw [hflat, hded]
    have hperm := List.perm_insertionSort mergeRel [a, b, c]
    constructor
    · rw [hperm.count_eq]
      have hba : b ≠ a := fun he => hab (by rw [he])
      have hbc2 : b ≠ c := fun he => hbc (by rw [he])
      simp [List.count_cons, hba, hbc2]
    · rw [hperm.length_eq]
      rfl

theorem merge_dedupe_sort_spec_witness :
    (mergeAndDeduplicateArticles [[mergeBatchA, mergeBatchB],
        [mergeBatchB, mergeBatchC]]).Pairwise
      (fun a b => ∀ x y, jsDateValue a.publishedAt = some x →
        jsDateValue b.publishedAt = some y → y ≤ x) ∧
    ((mergeAndDeduplicateArticles [[mergeBatchA, mergeBatchB],
        [mergeBatchB, mergeBatchC]]).count mergeBatchB = 1 ∧
      (mergeAndDeduplicateArticles [[mergeBatchA, mergeBatchB],
        [mergeBatchB, mergeBatchC]]).length = 3) :=
  ⟨(merge_dedupe_sort_spec [[mergeBatchA, mergeBatchB], [mergeBatchB, mergeBatchC]]).2.1
      (by decide),
   (merge_dedupe_sort_spec [[mergeBatchA, mergeBatchB], [mergeBatchB, mergeBatchC]]).2.2
      mergeBatchA mergeBatchB mergeBatchC (by decide) (by decide) (by decide)⟩

theorem lookup_isSome_iff {l : List (String × Nat)} {k : String} :
    (l.lookup k).isSome = true ↔ k ∈ l.map Prod.fst := by
  induction l with
  | nil => simp [List.lookup]
  | cons p t ih =>
    obtain ⟨a, b⟩ := p
    by_cases hk : k = a
    · subst hk; simp [List.lookup]
    · have hbeq : (k == a) = false := beq_eq_false_iff_ne.mpr hk
      simp [List.lookup, hbeq, hk, ih]

theorem mem_firstOccGo {x : String} :
    ∀ {l seen : List String}, x ∈ firstOccGo seen l ↔ (x ∈ l ∧ x ∉ seen) := by
  intro l
  induction l with
  | nil => intro seen; simp [firstOccGo]
  | cons k rest ih =>
    intro seen
    unfold firstOccGo
    split
    · next hin =>
      rw [ih]
      constructor
      · rintro ⟨hx, hs⟩; exact ⟨List.mem_cons_of_mem _ hx, hs⟩
      · rintro ⟨hx, hs⟩
        rcases List.mem_cons.mp hx with rfl | hx
        · exact absurd hin hs
        · exact ⟨hx, hs⟩
    · next hnot =>
      rw [List.mem_cons, ih]
      constructor
      · rintro (rfl | ⟨hx, hs⟩)
        · exact ⟨List.mem_cons_self _ _, hnot⟩
        · exact ⟨List.mem_cons_of_mem _ hx, fun hm => hs (List.mem_cons_of_mem _ hm)⟩
      · rintro ⟨hx, hs⟩
        by_cases hxk : x = k
        · exact Or.inl hxk
        · rcases List.mem_cons.mp hx with rfl | hx2
          · exact absurd rfl hxk
          · refine Or.inr ⟨hx2, fun hm => ?_⟩
            rcases List.mem_cons.mp hm with he | hm2
            · exact hxk he
            · exact hs hm2

theorem nodup_firstOccGo : ∀ (l seen : List String), (firstOccGo seen l).Nodup := by
  intro l
  induction l with
  | nil => intro seen; simp [firstOccGo]
  | cons k rest ih =>
    intro seen
    unfold firstOccGo
    split
    · exact ih seen
    · refine List.nodup_cons.mpr ⟨fun hm => ?_, ih _⟩
      exact (mem_firstOccGo.mp hm).2 (List.mem_cons_self _ _)

theorem firstOccGo_append (k : String) :
    ∀ (l seen : List String),
      firstOccGo seen (l ++ [k]) =
        firstOccGo seen l ++ (if k ∈ seen ∨ k ∈ l then [] else [k]) := by
  intro l
  induction l with
  | nil =>
    intro seen
    by_cases hk : k ∈ seen
    · simp [firstOccGo, hk]
    · simp [firstOccGo, hk]
  | cons a rest ih =>
    intro seen
    simp only [List.cons_append]
    unfold firstOccGo
    split
    · next hin =>
      rw [ih seen]
      have hiff : (k ∈ seen ∨ k ∈ rest) ↔ (k ∈ seen ∨ k ∈ a :: rest) := by
        constructor
        · rintro (h | h)
          · exact Or.inl h
          · exact Or.inr (List.mem_cons_of_mem _ h)
        · rintro (h | h)
          · exact Or.inl h
          · rcases List.mem_cons.mp h with rfl | h2
            · exact Or.inl hin
            · exact Or.inr h2
      rw [if_congr hiff rfl rfl]
    · next hnot =>
      rw [ih (a :: seen)]
      have hiff : (k ∈ a :: seen ∨ k ∈ rest) ↔ (k ∈ seen ∨ k ∈ a :: rest) := by
        constructor
        · rintro (h | h)
          · rcases List.mem_cons.mp h with rfl | h2
            · exact Or.inr (List.mem_cons_self _ _)
            · exact Or.inl h2
          · exact Or.inr (List.mem_cons_of_mem _ h)
        · rintro (h | h)
          · exact Or.inl (List.mem_cons_of_mem _ h)
          · rcases List.mem_cons.mp h with rfl | h2
            · exact Or.inl (List.mem_cons_self _ _)
            · exact Or.inr h2
      rw [if_congr hiff rfl rfl, List.cons_append]

theorem buildCount_snoc (ks : List String) (k : String) :
    buildCount (ks ++ [k]) = bumpKeyword (buildCount ks) k := by
  unfold buildCount
  rw [List.foldl_append]
  rfl

theorem buildCount_spec :
    ∀ ks : List String,
      (buildCount ks).map Prod.fst = firstOccurrences ks ∧
        ∀ p ∈ buildCount ks, p.2 = ks.count p.1 := by
  intro ks
  induction ks using List.reverseRecOn with
  | nil => exact ⟨rfl, by simp [buildCount]⟩
  | append_singleton ks k ih =>
    obtain ⟨hkeys, hcnt⟩ := ih
    rw [buildCount_snoc]
    unfold bumpKeyword
    split
    · next hlk =>
      have hkmem : k ∈ ks := by
        have h1 : k ∈ (buildCount ks).map Prod.fst := lookup_isSome_iff.mp hlk
        rw [hkeys] at h1
        exact (mem_firstOccGo.mp h1).1
      constructor
      · have hmap : ((buildCount ks).map fun p => if p.1 = k then (p.1, p.2 + 1) else p).map
            Prod.fst = (buildCount ks).map Prod.fst := by
          rw [List.map_map]
          exact List.map_congr_left (fun p _ => by dsimp; split <;> rfl)
        rw [hmap, hkeys]
        unfold firstOccurrences
        rw [firstOccGo_append]
        simp [hkmem]
      · intro p hp
        rw [List.mem_map] at hp
        obtain ⟨q, hq, rfl⟩ := hp
        by_cases hqk : q.1 = k
        · rw [if_pos hqk]
          dsimp
          rw [hcnt q hq, List.count_append, hqk]
          simp
        · rw [if_neg hqk]
          rw [hcnt q hq, List.count_append]
          simp [hqk]
    · next hlk =>
      have hknot : k ∉ ks := by
        intro hm
        apply hlk
        rw [lookup_isSome_iff, hkeys]
        exact mem_firstOccGo.mpr ⟨hm, List.not_mem_nil k⟩
      constructor
      · rw [List.map_append, hkeys]
        unfold firstOccurrences
        rw [firstOccGo_append]
        simp [hknot]
      · intro p hp
        rcases List.mem_append.mp hp with hp | hp
        · have hpk : p.1 ≠ k := by
            intro he
            exact hlk (lookup_isSome_iff.mpr (he ▸ List.mem_map_of_mem Prod.fst hp))
          rw [hcnt p hp, List.count_append]
          simp [hpk]
        · simp only [List.mem_singleton] at hp
          subst hp
          dsimp
          rw [List.count_append, List.count_eq_zero.mpr hknot]
          simp

theorem fold_flatten :
    ∀ (ls : List (List String)) (acc : List (String × Nat)),
      ls.foldl (fun acc kws => kws.foldl bumpKeyword acc) acc =
        ls.flatten.foldl bumpKeyword acc := by
  intro ls
  induction ls with
  | nil => intro acc; rfl
  | cons kws rest ih =>
    intro acc
    simp only [List.foldl_cons, List.flatten_cons, List.foldl_append]
    exact ih _

theorem keywordCountList_eq (articles : List Article) :
    keywordCountList articles = buildCount (kwStream articles) := by
  unfold keywordCountList kwStream
  rw [← List.foldl_map (fun a : Article => a.normalized.keywords)
    (fun acc kws => kws.foldl bumpKeyword acc)]
  exact fold_flatten _ _

theorem objectEntries_perm (fs : List (String × Nat)) :
    List.Perm (objectEntries fs) fs := by
  unfold objectEntries
  exact ((List.perm_insertionSort idxOrder _).append_right _).trans
    (List.filter_append_perm _ fs)

theorem cnt_keys (articles : List Article) :
    (keywordCountList articles).map Prod.fst = firstOccurrences (kwStream articles) := by
  rw [keywordCountList_eq]
  exact (buildCount_spec _).1

theorem cnt_snd (articles : List Article) {p : String × Nat}
    (hp : p ∈ keywordCountList articles) : p.2 = kwCount articles p.1 := by
  rw [keywordCountList_eq] at hp
  exact (buildCount_spec _).2 p hp

theorem pair_sublist_of_indexOf {α : Type} [DecidableEq α] {u v : α} :
    ∀ {l : List α}, u ∈ l → v ∈ l → l.indexOf u < l.indexOf v →
      List.Sublist [u, v] l := by
  intro l
  induction l with
  | nil => intro h _ _; exact absurd h (List.not_mem_nil u)
  | cons a t ih =>
    intro hu hv hlt
    by_cases hua : u = a
    · subst hua
      have hvt : v ∈ t := by
        rcases List.mem_cons.mp hv with rfl | h
        · rw [List.indexOf_cons_self] at hlt
          exact absurd hlt (by omega)
        · exact h
      exact List.Sublist.cons₂ u (List.singleton_sublist.mpr hvt)
    · have hv2 : v ≠ a := by
        intro he
        subst he
        rw [List.indexOf_cons_self] at hlt
        exact absurd hlt (by omega)
      have hut : u ∈ t := by
        rcases List.mem_cons.mp hu with rfl | h
        · exact absurd rfl hua
        · exact h
      have hvt : v ∈ t := by
        rcases List.mem_cons.mp hv with rfl | h
        · exact absurd rfl hv2
        · exact h
      have hlt2 : t.indexOf u < t.indexOf v := by
        rw [List.indexOf_cons_ne _ (Ne.symm hua), List.indexOf_cons_ne _ (Ne.symm hv2)] at hlt
        omega
      exact List.Sublist.cons a (ih hut hvt hlt2)

theorem indexOf_lt_of_pair_sublist {α : Type} [DecidableEq α] {u v : α} :
    ∀ {l : List α}, List.Sublist [u, v] l → l.Nodup → l.indexOf u < l.indexOf v := by
  intro l
  induction l with
  | nil => intro h _; simp at h
  | cons a t ih =>
    intro h hn
    obtain ⟨hna, hnt⟩ := List.nodup_cons.mp hn
    cases h with
    | cons _ h2 =>
      have hut : u ∈ t := h2.mem (by simp)
      have hvt : v ∈ t := h2.mem (by simp)
      have hua : u ≠ a := fun he => hna (he ▸ hut)
      have hva : v ≠ a := fun he => hna (he ▸ hvt)
      rw [List.indexOf_cons_ne _ (Ne.symm hua), List.indexOf_cons_ne _ (Ne.symm hva)]
      have := ih h2 hnt
      omega
    | cons₂ _ h2 =>
      have hvt : v ∈ t := List.singleton_sublist.mp h2
      have hva : v ≠ u := fun he => hna (he ▸ hvt)
      rw [List.indexOf_cons_self, List.indexOf_cons_ne _ (Ne.symm hva)]
      omega

theorem indexOf_take {α : Type} [DecidableEq α] {x : α} :
    ∀ {l : List α} {n : Nat}, x ∈ l.take n → (l.take n).indexOf x = l.indexOf x := by
  intro l
  induction l with
  | nil => intro n h; simp at h
  | cons a t ih =>
    intro n h
    cases n with
    | zero => simp at h
    | succ n =>
      rw [List.take_succ_cons] at h ⊢
      by_cases hxa : x = a
      · subst hxa
        rw [List.indexOf_cons_self, List.indexOf_cons_self]
      · have hxt : x ∈ t.take n := by
          rcases List.mem_cons.mp h with rfl | h2
          · exact absurd rfl hxa
          · exact h2
        rw [List.indexOf_cons_ne _ (Ne.symm hxa), List.indexOf_cons_ne _ (Ne.symm hxa),
          ih hxt]

theorem pair_sublist_map_fst_inv {u v : String} :
    ∀ {l : List (String × Nat)}, List.Sublist [u, v] (l.map Prod.fst) →
      ∃ p q, List.Sublist [p, q] l ∧ p.1 = u ∧ q.1 = v := by
  intro l
  induction l with
  | nil => intro h; simp at h
  | cons a t ih =>
    intro h
    rw [List.map_cons] at h
    cases h with
    | cons _ h2 =>
      obtain ⟨p, q, hs, hp, hq⟩ := ih h2
      exact ⟨p, q, List.Sublist.cons a hs, hp, hq⟩
    | cons₂ _ h2 =>
      obtain ⟨q, hqt, hqv⟩ := List.mem_map.mp (List.singleton_sublist.mp h2)
      exact ⟨a, q, List.Sublist.cons₂ a (List.singleton_sublist.mpr hqt), rfl, hqv⟩

theorem trending_sub_firstOcc {articles : List Article} {limit : Nat} {k : String}
    (hk : k ∈ extractTrendingTopics articles limit) :
    k ∈ firstOccurrences (kwStream articles) := by
  unfold extractTrendingTopics at hk
  obtain ⟨p, hp, rfl⟩ := List.mem_map.mp hk
  have hp2 : p ∈ List.insertionSort countOrder (objectEntries (keywordCountList articles)) :=
    List.mem_of_mem_take hp
  have hp3 : p ∈ keywordCountList articles :=
    (objectEntries_perm _).mem_iff.mp ((List.perm_insertionSort countOrder _).mem_iff.mp hp2)
  rw [← cnt_keys]
  exact List.mem_map_of_mem Prod.fst hp3

/-- C7 (amended): `extractTrendingTopics` counts keyword occurrences
across all articles' `normalized.keywords` and returns at most `limit`
distinct keywords in descending count order; on an empty article list it
returns `[]`, and for one article with keywords `["a", "b", "a"]` the
output is `["a", "b"]`.  Ties are broken by the JavaScript own-property
order of the count object: among keywords that are not array-index
strings this is first-seen order, but array-index-shaped keywords are
enumerated first in ascending numeric order (see the counterexample). -/
theorem trending_topics_spec :
    (∀ limit : Nat, extractTrendingTopics [] limit = []) ∧
    (∀ (articles : List Article) (limit : Nat),
      (extractTrendingTopics articles limit).length ≤ limit) ∧
    (∀ (articles : List Article) (limit : Nat),
      (extractTrendingTopics articles limit).Nodup) ∧
    (∀ (articles : List Article) (limit : Nat),
      ∀ k ∈ extractTrendingTopics articles limit, k ∈ kwStream articles) ∧
    (∀ (articles : List Article) (limit : Nat),
      (extractTrendingTopics articles limit).Pairwise
        (fun u v => kwCount articles v ≤ kwCount articles u)) ∧
    (∀ (articles : List Article) (limit : Nat) (u v : String),
      u ∈ extractTrendingTopics articles limit →
      v ∈ extractTrendingTopics articles limit →
      kwCount articles u = kwCount articles v →
      isArrayIndexKey u = false → isArrayIndexKey v = false →
      (firstOccurrences (kwStream articles)).indexOf u <
        (firstOccurrences (kwStream articles)).indexOf v →
      (extractTrendingTopics articles limit).indexOf u <
        (extractTrendingTopics articles limit).indexOf v) ∧
    extractTrendingTopics [tieArticle] 10 = ["a", "b"] := by
  refine ⟨?_, ?_, ?_, ?_, ?_, ?_, by decide⟩
  · intro limit
    simp [extractTrendingTopics, keywordCountList, objectEntries]
  · intro articles limit
    unfold extractTrendingTopics
    rw [List.length_map]
    exact List.length_take_le _ _
  · intro articles limit
    have hnk : ((keywordCountList articles).map Prod.fst).Nodup := by
      rw [cnt_keys]
      exact nodup_firstOccGo _ []
    have hperm : List.Perm
        ((List.insertionSort countOrder (objectEntries (keywordCountList articles))).map
          Prod.fst) ((keywordCountList articles).map Prod.fst) :=
      ((List.perm_insertionSort countOrder _).trans (objectEntries_perm _)).map Prod.fst
    have hfull : ((List.insertionSort countOrder
        (objectEntries (keywordCountList articles))).map Prod.fst).Nodup :=
      hperm.nodup_iff.mpr hnk
    unfold extractTrendingTopics
    rw [List.map_take]
    exact List.Nodup.sublist (List.take_sublist _ _) hfull
  · intro articles limit k hk
    have h1 := trending_sub_firstOcc hk
    unfold firstOccurrences at h1
    exact (mem_firstOccGo.mp h1).1
  · intro articles limit
    have hsorted := List.sorted_insertionSort countOrder
      (objectEntries (keywordCountList articles))
    have htake := List.Pairwise.sublist (List.take_sublist limit _) hsorted
    unfold extractTrendingTopics
    rw [List.pairwise_map]
    refine htake.imp_of_mem ?_
    intro p q hp hq hpq
    have hp2 : p ∈ keywordCountList articles :=
      (objectEntries_perm _).mem_iff.mp
        ((List.perm_insertionSort countOrder _).mem_iff.mp (List.mem_of_mem_take hp))
    have hq2 : q ∈ keywordCountList articles :=
      (objectEntries_perm _).mem_iff.mp
        ((List.perm_insertionSort countOrder _).mem_iff.mp (List.mem_of_mem_take hq))
    unfold countOrder at hpq
    rw [cnt_snd articles hq2, cnt_snd articles hp2] at hpq
    exact hpq
  · intro articles limit u v hu hv hcnt hiu hiv hfo
    have hout : extractTrendingTopics articles limit =
        ((List.insertionSort countOrder (objectEntries (keywordCountList articles))).map
          Prod.fst).take limit := by
      unfold extractTrendingTopics
      rw [List.map_take]
    have hnk : ((keywordCountList articles).map Prod.fst).Nodup := by
      rw [cnt_keys]
      exact nodup_firstOccGo _ []
    have hfull_nodup : ((List.insertionSort countOrder
        (objectEntries (keywordCountList articles))).map Prod.fst).Nodup :=
      (((List.perm_insertionSort countOrder _).trans (objectEntries_perm _)).map
        Prod.fst).nodup_iff.mpr hnk
    have humem := trending_sub_firstOcc hu
    have hvmem := trending_sub_firstOcc hv
    have hpair1 : List.Sublist [u, v] (firstOccurrences (kwStream articles)) :=
      pair_sublist_of_indexOf humem hvmem hfo
    rw [← cnt_keys] at hpair1
    obtain ⟨p, q, hpq, hp1, hq1⟩ := pair_sublist_map_fst_inv hpair1
    have hpmem : p ∈ keywordCountList articles := hpq.mem (by simp)
    have hqmem : q ∈ keywordCountList articles := hpq.mem (by simp)
    have hp2 : p.2 = kwCount articles u := by rw [cnt_snd articles hpmem, hp1]
    have hq2 : q.2 = kwCount articles v := by rw [cnt_snd articles hqmem, hq1]
    have hco : countOrder p q := by
      unfold countOrder
      rw [hp2, hq2, hcnt]
    have hfil : List.Sublist [p, q]
        ((keywordCountList articles).filter (fun r => !isArrayIndexKey r.1)) := by
      have hsf := List.Sublist.filter (fun r => !isArrayIndexKey r.1) hpq
      rwa [show ([p, q].filter (fun r => !isArrayIndexKey r.1)) = [p, q] by
        simp [List.filter, hp1, hq1, hiu, hiv]] at hsf
    have hent : List.Sublist [p, q] (objectEntries (keywordCountList articles)) := by
      unfold objectEntries
      exact hfil.trans (List.sublist_append_right _ _)
    have hsor := List.pair_sublist_insertionSort hco hent
    have hmap := List.Sublist.map Prod.fst hsor
    rw [show [p, q].map Prod.fst = [u, v] by simp [hp1, hq1]] at hmap
    have hlt := indexOf_lt_of_pair_sublist hmap hfull_nodup
    rw [hout] at hu hv ⊢
    rw [indexOf_take hu, indexOf_take hv]
    exact hlt

/-- C7 counterexample: keywords that are array-index strings are
enumerated by the count object in ascending numeric order, not
first-seen order, so the tie between `"9999"` (seen first) and `"1000"`
is broken the other way. -/
theorem trending_tiebreak_counterexample :
    extractTrendingTopics [numKeyArticle] 10 = ["1000", "9999"] ∧
      extractTrendingTopics [numKeyArticle] 10 ≠ ["9999", "1000"] := by
  decide

theorem trending_topics_spec_witness :
    (extractTrendingTopics [{ plainArticle with
        normalized := ⟨1, 0, ["alpha", "beta"]⟩ }] 10).indexOf "alpha" <
      (extractTrendingTopics [{ plainArticle with
        normalized := ⟨1, 0, ["alpha", "beta"]⟩ }] 10).indexOf "beta" :=
  trending_topics_spec.2.2.2.2.2.1
    [{ plainArticle with normalized := ⟨1, 0, ["alpha", "beta"]⟩ }] 10 "alpha" "beta"
    (by decide) (by decide) (by decide) (by decide) (by decide) (by decide)
